import Mathlib

/-!
# Verification of the aiogzip asynchronous gzip stream codec

A shallow embedding of `src/aiogzip/__init__.py` (classes
`AsyncGzipBinaryFile` and `AsyncGzipTextFile` plus the module-level helper
functions), together with theorems settling the behavioural claims about it.

Bytes are modelled as `Nat` values (`< 256` for real data), byte strings as
`List Nat`, text as `List Char`.  The asynchronous transport (`aiofiles`
handles) is modelled as an in-memory byte list with a cursor; `await` points
are plain sequencing.  The zlib deflate engine is an external collaborator of
the code under test (the spec treats it as "a provided engine with
compress/decompress/flush and unused-data semantics"), so it is modelled from
the spec: the compressor buffers its input and emits a self-delimiting body on
finish; the decompressor parses one complete gzip member (header, body,
CRC-32/size trailer) and reports the bytes past the member end as unused
data, erroring on malformed input and on truncated flush.
-/

namespace Aiogzip

/-! ## Small byte-string utilities -/

/-- Little-endian 4-byte encoding of `n % 2^32`, the model of
`struct.pack("<I", n)` applied after masking with `0xFFFFFFFF`. -/
def le32 (n : Nat) : List Nat :=
  [n % 256, n / 256 % 256, n / 65536 % 256, n / 16777216 % 256]

/-- Read back a 4-byte little-endian value (model of `struct.unpack("<I", ·)`). -/
def readLE32 (bs : List Nat) : Nat :=
  match bs with
  | [a, b, c, d] => a % 256 + 256 * (b % 256) + 65536 * (c % 256) + 16777216 * (d % 256)
  | _ => 0

theorem le32_length (n : Nat) : (le32 n).length = 4 := rfl

theorem readLE32_le32 (n : Nat) (h : n < 4294967296) : readLE32 (le32 n) = n := by
  simp only [le32, readLE32]
  omega

/-- All bytes of a list are zero. -/
def allZeros (s : List Nat) : Bool := s.all (· = 0)

/-- `k` zero bytes. -/
def zeros (k : Nat) : List Nat := List.replicate k 0

/-- Strip leading NUL bytes: model of `bytes.lstrip(b"\x00")`. -/
def stripZeros (s : List Nat) : List Nat := s.dropWhile (· = 0)

theorem stripZeros_zeros_append (k : Nat) (s : List Nat) :
    stripZeros (zeros k ++ s) = stripZeros s := by
  induction k with
  | zero => rfl
  | succ k ih =>
    simp only [zeros, stripZeros, List.replicate_succ, List.cons_append, List.dropWhile]
    simp only [zeros, stripZeros] at ih
    exact ih

theorem stripZeros_cons_of_ne (b : Nat) (s : List Nat) (h : b ≠ 0) :
    stripZeros (b :: s) = b :: s := by
  simp [stripZeros, List.dropWhile, h]

theorem stripZeros_length_le (s : List Nat) : (stripZeros s).length ≤ s.length := by
  induction s with
  | nil => simp [stripZeros]
  | cons a t ih =>
    by_cases h : a = 0
    · simp only [stripZeros, List.dropWhile] at ih ⊢
      simp only [h]
      simpa using Nat.le_succ_of_le ih
    · simp [stripZeros, List.dropWhile, h]

/-! ## CRC-32 (the zlib `crc32` collaborator)

The standard reflected CRC-32 with polynomial `0xEDB88320`, modelled from the
spec's wire-format requirement (trailer carries CRC-32 of the uncompressed
payload).  `crc32Update c data` models `zlib.crc32(data, c)`. -/

def crc32Poly : Nat := 0xEDB88320

/-- One shift-xor round of the reflected CRC-32. -/
def crc32Round (c : Nat) : Nat :=
  if c % 2 = 1 then (c / 2) ^^^ crc32Poly else c / 2

/-- Fold one byte into the CRC register. -/
def crc32Byte (c b : Nat) : Nat :=
  let c0 := c ^^^ (b % 256)
  crc32Round (crc32Round (crc32Round (crc32Round
    (crc32Round (crc32Round (crc32Round (crc32Round c0)))))))

/-- `zlib.crc32(data, crc)`. -/
def crc32Update (crc : Nat) (data : List Nat) : Nat :=
  (data.foldl crc32Byte (crc ^^^ 0xFFFFFFFF)) ^^^ 0xFFFFFFFF

theorem crc32Update_append (crc : Nat) (a b : List Nat) :
    crc32Update (crc32Update crc a) b = crc32Update crc (a ++ b) := by
  simp only [crc32Update, List.foldl_append]
  congr 1
  rw [Nat.xor_assoc, Nat.xor_self, Nat.xor_zero]

theorem crc32Round_lt (c : Nat) (h : c < 4294967296) : crc32Round c < 4294967296 := by
  unfold crc32Round
  split
  · exact @Nat.xor_lt_two_pow _ _ 32 (by omega) (by norm_num [crc32Poly])
  · omega

theorem crc32Byte_lt (c b : Nat) (h : c < 4294967296) : crc32Byte c b < 4294967296 := by
  unfold crc32Byte
  have h0 : c ^^^ b % 256 < 4294967296 :=
    @Nat.xor_lt_two_pow _ _ 32 h (by have := @Nat.mod_lt b 256 (by norm_num); omega)
  exact crc32Round_lt _ (crc32Round_lt _ (crc32Round_lt _ (crc32Round_lt _
    (crc32Round_lt _ (crc32Round_lt _ (crc32Round_lt _ (crc32Round_lt _ h0)))))))

theorem crc32_foldl_lt (data : List Nat) (c : Nat) (h : c < 4294967296) :
    data.foldl crc32Byte c < 4294967296 := by
  induction data generalizing c with
  | nil => simpa using h
  | cons a t ih => exact ih _ (crc32Byte_lt _ _ h)

theorem crc32Update_lt (crc : Nat) (data : List Nat) (h : crc < 4294967296) :
    crc32Update crc data < 4294967296 := by
  unfold crc32Update
  exact @Nat.xor_lt_two_pow _ _ 32
    (crc32_foldl_lt _ _ (@Nat.xor_lt_two_pow _ _ 32 h (by norm_num))) (by norm_num)

/-! ## The deflate body framing used by the modelled engine

The deflate primitive is out of scope ("treated as a provided engine"); the
model frames the raw payload with a self-delimiting LEB128 length so the
decompressor can find the member end, as real deflate's final-block flag
does. -/

/-- LEB128 encoding of a natural number (self-delimiting, at least one byte). -/
def lebEncode (n : Nat) : List Nat :=
  if h : n < 128 then [n] else (n % 128 + 128) :: lebEncode (n / 128)
decreasing_by exact Nat.div_lt_self (by omega) (by norm_num)

/-- LEB128 decoding; returns the value and the remaining bytes, or `none` when
the input ends inside the encoding. -/
def lebDecode (s : List Nat) : Option (Nat × List Nat) :=
  match s with
  | [] => none
  | b :: rest =>
    if b < 128 then some (b, rest)
    else (lebDecode rest).map (fun p => (b % 128 + 128 * p.1, p.2))

theorem lebDecode_append (s t u : List Nat) (n : Nat)
    (h : lebDecode s = some (n, u)) : lebDecode (s ++ t) = some (n, u ++ t) := by
  induction s generalizing n with
  | nil => simp [lebDecode] at h
  | cons b rest ih =>
    simp only [lebDecode, List.cons_append, List.append_eq] at h ⊢
    by_cases hb : b < 128
    · simp only [if_pos hb, Option.some.injEq, Prod.mk.injEq] at h ⊢
      exact ⟨h.1, by rw [← h.2]⟩
    · simp only [if_neg hb, Option.map_eq_some'] at h ⊢
      obtain ⟨⟨m, r⟩, hmr, heq⟩ := h
      injection heq with h1 h2
      subst h1; subst h2
      exact ⟨(m, r ++ t), ih _ hmr, rfl⟩

theorem lebDecode_lebEncode (n : Nat) (t : List Nat) :
    lebDecode (lebEncode n ++ t) = some (n, t) := by
  induction n using Nat.strong_induction_on with
  | _ n ih =>
    by_cases h : n < 128
    · rw [lebEncode, dif_pos h]
      simp [lebDecode, h]
    · rw [lebEncode, dif_neg h]
      have hd : n / 128 < n := Nat.div_lt_self (by omega) (by norm_num)
      simp only [List.cons_append, lebDecode, List.append_eq]
      rw [if_neg (by omega), ih (n / 128) hd]
      simp only [Option.map_some', Option.some.injEq, Prod.mk.injEq, Nat.add_mod_right]
      exact ⟨by omega, trivial⟩

theorem lebEncode_length_le (n : Nat) : (lebEncode n).length ≤ n + 1 := by
  induction n using Nat.strong_induction_on with
  | _ n ih =>
    by_cases h : n < 128
    · rw [lebEncode, dif_pos h]; simp
    · rw [lebEncode, dif_neg h]
      have hd : n / 128 < n := Nat.div_lt_self (by omega) (by norm_num)
      have := ih (n / 128) hd
      simp only [List.length_cons]
      omega

/-! ## HeaderCodec: gzip header and trailer construction

Faithful embeddings of `_build_gzip_header` and `_build_gzip_trailer`.
`mtime = none` falls back to the current time, passed in as `now` (the
embedding of `int(time.time())`). -/

def GZIP_FLAG_FNAME : Nat := 0x08
def GZIP_FLAG_FHCRC : Nat := 0x02
def GZIP_FLAG_FEXTRA : Nat := 0x04
def GZIP_FLAG_FCOMMENT : Nat := 0x10
def GZIP_METHOD_DEFLATE : Nat := 8
def GZIP_OS_UNKNOWN : Nat := 255

/-- XFL byte derived from the compression level (best=2, fastest=4, else 0). -/
def xflOf (compresslevel : Int) : Nat :=
  if compresslevel = 9 then 2 else if compresslevel = 1 then 4 else 0

/-- `_build_gzip_header(filename_bytes, mtime, compresslevel)`; `now` stands in
for `int(time.time())` when `mtime` is `None`. -/
def buildGzipHeader (filenameBytes : List Nat) (mtime : Option Nat) (now : Nat)
    (compresslevel : Int) : List Nat :=
  let flags := if filenameBytes ≠ [] then GZIP_FLAG_FNAME else 0
  let seconds := match mtime with | none => now | some m => m
  [0x1f, 0x8b, GZIP_METHOD_DEFLATE, flags] ++ le32 seconds ++
    [xflOf compresslevel, GZIP_OS_UNKNOWN] ++
    (if filenameBytes ≠ [] then filenameBytes ++ [0] else [])

/-- `_build_gzip_trailer(crc, size)` = `struct.pack("<II", crc & 0xFFFFFFFF,
size & 0xFFFFFFFF)`; `le32` already reduces its argument mod `2^32`. -/
def buildGzipTrailer (crc size : Nat) : List Nat := le32 crc ++ le32 size

/-! ## Finding a NUL byte (model of `bytes.find(b"\x00", pos)`) -/

/-- Index of the first zero byte, if any. -/
def findZero : List Nat → Option Nat
  | [] => none
  | b :: rest => if b = 0 then some 0 else (findZero rest).map (· + 1)

/-- `data.find(b"\x00", pos)`: absolute index of the first zero at or after
`pos`, or `none` (Python returns `-1`). -/
def findZeroFrom (s : List Nat) (pos : Nat) : Option Nat :=
  (findZero (s.drop pos)).map (· + pos)

theorem findZero_some (s : List Nat) (z : Nat) (h : findZero s = some z) :
    z < s.length ∧ s.getD z 1 = 0 := by
  induction s generalizing z with
  | nil => simp [findZero] at h
  | cons b rest ih =>
    simp only [findZero] at h
    by_cases hb : b = 0
    · simp only [if_pos hb, Option.some.injEq] at h
      subst h; simp [hb]
    · simp only [if_neg hb, Option.map_eq_some'] at h
      obtain ⟨z0, hz0, hz⟩ := h
      obtain ⟨h1, h2⟩ := ih z0 hz0
      subst hz
      exact ⟨by simpa using Nat.succ_lt_succ h1, by simpa using h2⟩

theorem findZero_append_some (s t : List Nat) (z : Nat) (h : findZero s = some z) :
    findZero (s ++ t) = some z := by
  induction s generalizing z with
  | nil => simp [findZero] at h
  | cons b rest ih =>
    simp only [findZero, List.cons_append] at h ⊢
    by_cases hb : b = 0
    · simpa [hb] using h
    · simp only [if_neg hb, Option.map_eq_some'] at h ⊢
      obtain ⟨z0, hz0, hz⟩ := h
      exact ⟨z0, ih z0 hz0, hz⟩

theorem findZeroFrom_some (s : List Nat) (pos z : Nat)
    (h : findZeroFrom s pos = some z) : pos ≤ z ∧ z < s.length := by
  simp only [findZeroFrom, Option.map_eq_some'] at h
  obtain ⟨z0, hz0, hz⟩ := h
  obtain ⟨h1, _⟩ := findZero_some _ _ hz0
  subst hz
  have := List.length_drop pos s
  omega

theorem findZeroFrom_append_some (s t : List Nat) (pos z : Nat)
    (h : findZeroFrom s pos = some z) : findZeroFrom (s ++ t) pos = some z := by
  simp only [findZeroFrom, Option.map_eq_some'] at h ⊢
  obtain ⟨z0, hz0, hz⟩ := h
  obtain ⟨h1, _⟩ := findZero_some _ _ hz0
  refine ⟨z0, ?_, hz⟩
  have hds : (s ++ t).drop pos = s.drop pos ++ t := by
    rw [List.drop_append_of_le_length]
    have := findZeroFrom_some s pos z (by simp [findZeroFrom, hz0, hz])
    omega
  rw [hds]
  exact findZero_append_some _ _ _ hz0

/-! ## `_try_parse_gzip_header_mtime` (faithful embedding)

Transcribed from the source; the early `return`s become nested branches.
Byte extraction uses `% 256` (Python `bytes` elements are always < 256). -/

/-- `_try_parse_gzip_header_mtime(data)`: `(mtime, complete)`. -/
def tryParseGzipHeaderMtime (data : List Nat) : Option Nat × Bool :=
  if data.length < 10 then (none, false)
  else if ¬(data.take 2 = [0x1f, 0x8b] ∧ data.getD 2 0 = GZIP_METHOD_DEFLATE) then
    (none, true)
  else
    let flags := data.getD 3 0
    let mtime := readLE32 ((data.drop 4).take 4)
    let afterExtra : Option Nat :=
      if flags &&& GZIP_FLAG_FEXTRA ≠ 0 then
        if data.length < 10 + 2 then none
        else
          let xlen := data.getD 10 0 % 256 + 256 * (data.getD 11 0 % 256)
          let pos := 12 + xlen
          if data.length < pos then none else some pos
      else some 10
    match afterExtra with
    | none => (none, false)
    | some pos1 =>
      let afterName : Option Nat :=
        if flags &&& GZIP_FLAG_FNAME ≠ 0 then
          match findZeroFrom data pos1 with
          | none => none
          | some terminator => some (terminator + 1)
        else some pos1
      match afterName with
      | none => (none, false)
      | some pos2 =>
        let afterComment : Option Nat :=
          if flags &&& GZIP_FLAG_FCOMMENT ≠ 0 then
            match findZeroFrom data pos2 with
            | none => none
            | some terminator => some (terminator + 1)
          else some pos2
        match afterComment with
        | none => (none, false)
        | some pos3 =>
          if flags &&& GZIP_FLAG_FHCRC ≠ 0 ∧ data.length < pos3 + 2 then (none, false)
          else (some mtime, true)

/-! ## General gzip header parse (the zlib collaborator's header handling)

Modelled from the spec: the wire format of §6 ("Header: 1F 8B 08 FLG MTIME
XFL OS, optional extra/name/comment/CRC16 fields") as consumed by the
decompress engine.  Reports `bad` as soon as the fixed magic/method bytes
mismatch, `incomplete` while more bytes are needed, and otherwise the number
of bytes the full header occupies. -/

inductive HRes where
  | complete (hlen : Nat)
  | incomplete
  | bad
deriving DecidableEq

/-- Position after the FEXTRA field (`none` = more bytes needed). -/
def hdrExtra (flg : Nat) (s : List Nat) : Option Nat :=
  if flg &&& GZIP_FLAG_FEXTRA = 0 then some 10
  else if s.length < 12 then none
  else if s.length < 12 + (s.getD 10 0 % 256 + 256 * (s.getD 11 0 % 256)) then none
  else some (12 + (s.getD 10 0 % 256 + 256 * (s.getD 11 0 % 256)))

/-- Position after a NUL-terminated field gated by `mask` (`none` = more bytes
needed). -/
def hdrZeroField (flg mask : Nat) (s : List Nat) (pos : Nat) : Option Nat :=
  if flg &&& mask = 0 then some pos
  else
    match findZeroFrom s pos with
    | none => none
    | some z => some (z + 1)

/-- Position after the FHCRC field (`none` = more bytes needed). -/
def hdrCrc16 (flg : Nat) (s : List Nat) (pos : Nat) : Option Nat :=
  if flg &&& GZIP_FLAG_FHCRC = 0 then some pos
  else if s.length < pos + 2 then none
  else some (pos + 2)

/-- Incremental parse of a full gzip member header. -/
def parseHeader (s : List Nat) : HRes :=
  if 1 ≤ s.length ∧ s.getD 0 0 ≠ 0x1f then .bad
  else if 2 ≤ s.length ∧ s.getD 1 0 ≠ 0x8b then .bad
  else if 3 ≤ s.length ∧ s.getD 2 0 ≠ GZIP_METHOD_DEFLATE then .bad
  else if s.length < 10 then .incomplete
  else
    match hdrExtra (s.getD 3 0) s with
    | none => .incomplete
    | some p1 =>
      match hdrZeroField (s.getD 3 0) GZIP_FLAG_FNAME s p1 with
      | none => .incomplete
      | some p2 =>
        match hdrZeroField (s.getD 3 0) GZIP_FLAG_FCOMMENT s p2 with
        | none => .incomplete
        | some p3 =>
          match hdrCrc16 (s.getD 3 0) s p3 with
          | none => .incomplete
          | some p4 => .complete p4

theorem hdrExtra_bounds (flg : Nat) (s : List Nat) (p : Nat)
    (h : hdrExtra flg s = some p) (hlen : 10 ≤ s.length) :
    10 ≤ p ∧ p ≤ s.length := by
  unfold hdrExtra at h
  split at h
  · rw [Option.some.injEq] at h
    omega
  · split at h
    · simp at h
    · split at h
      · simp at h
      · rw [Option.some.injEq] at h
        rename_i h1 h2 h3
        omega

theorem hdrExtra_append (flg : Nat) (s t : List Nat) (p : Nat)
    (h : hdrExtra flg s = some p) : hdrExtra flg (s ++ t) = some p := by
  unfold hdrExtra at h ⊢
  split at h
  · rename_i h0
    rw [if_pos h0]
    exact h
  · rename_i h0
    rw [if_neg h0]
    split at h
    · simp at h
    · rename_i h12
      have g10 : (s ++ t).getD 10 0 = s.getD 10 0 := List.getD_append _ _ _ _ (by omega)
      have g11 : (s ++ t).getD 11 0 = s.getD 11 0 := List.getD_append _ _ _ _ (by omega)
      have h12' : ¬((s ++ t).length < 12) := by
        rw [List.length_append]; omega
      rw [if_neg h12', g10, g11]
      split at h
      · simp at h
      · rename_i hx
        have hx' : ¬((s ++ t).length < 12 + (s.getD 10 0 % 256 + 256 * (s.getD 11 0 % 256))) := by
          rw [List.length_append]; omega
        rw [if_neg hx']
        exact h

theorem hdrZeroField_bounds (flg mask : Nat) (s : List Nat) (pos p : Nat)
    (h : hdrZeroField flg mask s pos = some p) (hpos : pos ≤ s.length) :
    pos ≤ p ∧ p ≤ s.length := by
  unfold hdrZeroField at h
  split at h
  · rw [Option.some.injEq] at h
    omega
  · cases hz : findZeroFrom s pos with
    | none => rw [hz] at h; simp at h
    | some z =>
      rw [hz, Option.some.injEq] at h
      obtain ⟨h1, h2⟩ := findZeroFrom_some s pos z hz
      omega

theorem hdrZeroField_append (flg mask : Nat) (s t : List Nat) (pos p : Nat)
    (h : hdrZeroField flg mask s pos = some p) :
    hdrZeroField flg mask (s ++ t) pos = some p := by
  unfold hdrZeroField at h ⊢
  split at h
  · rename_i h0
    rw [if_pos h0]
    exact h
  · rename_i h0
    rw [if_neg h0]
    cases hz : findZeroFrom s pos with
    | none => rw [hz] at h; simp at h
    | some z =>
      rw [hz] at h
      rw [findZeroFrom_append_some s t pos z hz]
      exact h

theorem hdrCrc16_bounds (flg : Nat) (s : List Nat) (pos p : Nat)
    (h : hdrCrc16 flg s pos = some p) (hpos : pos ≤ s.length) :
    pos ≤ p ∧ p ≤ s.length := by
  unfold hdrCrc16 at h
  split at h
  · rw [Option.some.injEq] at h
    omega
  · split at h
    · simp at h
    · rw [Option.some.injEq] at h
      rename_i h1 h2
      omega

theorem hdrCrc16_append (flg : Nat) (s t : List Nat) (pos p : Nat)
    (h : hdrCrc16 flg s pos = some p) :
    hdrCrc16 flg (s ++ t) pos = some p := by
  unfold hdrCrc16 at h ⊢
  split at h
  · rename_i h0
    rw [if_pos h0]
    exact h
  · rename_i h0
    rw [if_neg h0]
    split at h
    · simp at h
    · rename_i h2
      have h2' : ¬((s ++ t).length < pos + 2) := by
        rw [List.length_append]; omega
      rw [if_neg h2']
      exact h

theorem parseHeader_complete_bounds (s : List Nat) (n : Nat)
    (h : parseHeader s = .complete n) : 10 ≤ n ∧ n ≤ s.length := by
  unfold parseHeader at h
  split at h
  · simp at h
  · split at h
    · simp at h
    · split at h
      · simp at h
      · split at h
        · simp at h
        · rename_i hc1 hc2 hc3 hlen
          cases hE : hdrExtra (s.getD 3 0) s with
          | none => simp only [hE] at h; simp at h
          | some p1 =>
            simp only [hE] at h
            cases hN : hdrZeroField (s.getD 3 0) GZIP_FLAG_FNAME s p1 with
            | none => simp only [hN] at h; simp at h
            | some p2 =>
              simp only [hN] at h
              cases hC : hdrZeroField (s.getD 3 0) GZIP_FLAG_FCOMMENT s p2 with
              | none => simp only [hC] at h; simp at h
              | some p3 =>
                simp only [hC] at h
                cases hH : hdrCrc16 (s.getD 3 0) s p3 with
                | none => simp only [hH] at h; simp at h
                | some p4 =>
                  simp only [hH] at h
                  simp only [HRes.complete.injEq] at h
                  subst h
                  obtain ⟨e1, e2⟩ := hdrExtra_bounds _ _ _ hE (by omega)
                  obtain ⟨n1, n2⟩ := hdrZeroField_bounds _ _ _ _ _ hN e2
                  obtain ⟨c1, c2⟩ := hdrZeroField_bounds _ _ _ _ _ hC n2
                  obtain ⟨f1, f2⟩ := hdrCrc16_bounds _ _ _ _ hH c2
                  omega

theorem parseHeader_complete_append (s t : List Nat) (n : Nat)
    (h : parseHeader s = .complete n) : parseHeader (s ++ t) = .complete n := by
  have hb := parseHeader_complete_bounds s n h
  unfold parseHeader at h ⊢
  split at h
  · simp at h
  · split at h
    · simp at h
    · split at h
      · simp at h
      · split at h
        · simp at h
        · rename_i hc1 hc2 hc3 hlen
          have hlen10 : 10 ≤ s.length := by omega
          have g0 : (s ++ t).getD 0 0 = s.getD 0 0 := List.getD_append _ _ _ _ (by omega)
          have g1 : (s ++ t).getD 1 0 = s.getD 1 0 := List.getD_append _ _ _ _ (by omega)
          have g2 : (s ++ t).getD 2 0 = s.getD 2 0 := List.getD_append _ _ _ _ (by omega)
          have g3 : (s ++ t).getD 3 0 = s.getD 3 0 := List.getD_append _ _ _ _ (by omega)
          have hlent : ¬((s ++ t).length < 10) := by rw [List.length_append]; omega
          have hc1' : ¬(1 ≤ (s ++ t).length ∧ (s ++ t).getD 0 0 ≠ 0x1f) := by
            rw [g0]; intro hcon; exact hc1 ⟨by omega, hcon.2⟩
          have hc2' : ¬(2 ≤ (s ++ t).length ∧ (s ++ t).getD 1 0 ≠ 0x8b) := by
            rw [g1]; intro hcon; exact hc2 ⟨by omega, hcon.2⟩
          have hc3' : ¬(3 ≤ (s ++ t).length ∧ (s ++ t).getD 2 0 ≠ GZIP_METHOD_DEFLATE) := by
            rw [g2]; intro hcon; exact hc3 ⟨by omega, hcon.2⟩
          rw [if_neg hc1', if_neg hc2', if_neg hc3', if_neg hlent, g3]
          cases hE : hdrExtra (s.getD 3 0) s with
          | none => simp only [hE] at h; simp at h
          | some p1 =>
            simp only [hE] at h
            simp only [hdrExtra_append _ s t _ hE]
            obtain ⟨e1, e2⟩ := hdrExtra_bounds _ _ _ hE hlen10
            cases hN : hdrZeroField (s.getD 3 0) GZIP_FLAG_FNAME s p1 with
            | none => simp only [hN] at h; simp at h
            | some p2 =>
              simp only [hN] at h
              simp only [hdrZeroField_append _ _ s t _ _ hN]
              obtain ⟨n1, n2⟩ := hdrZeroField_bounds _ _ _ _ _ hN e2
              cases hC : hdrZeroField (s.getD 3 0) GZIP_FLAG_FCOMMENT s p2 with
              | none => simp only [hC] at h; simp at h
              | some p3 =>
                simp only [hC] at h
                simp only [hdrZeroField_append _ _ s t _ _ hC]
                cases hH : hdrCrc16 (s.getD 3 0) s p3 with
                | none => simp only [hH] at h; simp at h
                | some p4 =>
                  simp only [hH] at h
                  simp only [hdrCrc16_append _ s t _ _ hH]
                  exact h

theorem parseHeader_bad_append (s t : List Nat) (h : parseHeader s = .bad) :
    parseHeader (s ++ t) = .bad := by
  unfold parseHeader at h ⊢
  split at h
  · rename_i hc1
    have g0 : (s ++ t).getD 0 0 = s.getD 0 0 := List.getD_append _ _ _ _ (by omega)
    rw [if_pos (by rw [g0]; exact ⟨by rw [List.length_append]; omega, hc1.2⟩)]
  · rename_i hc1
    split at h
    · rename_i hc2
      have g1 : (s ++ t).getD 1 0 = s.getD 1 0 := List.getD_append _ _ _ _ (by omega)
      have hc1' : ¬(1 ≤ (s ++ t).length ∧ (s ++ t).getD 0 0 ≠ 0x1f) := by
        have g0 : (s ++ t).getD 0 0 = s.getD 0 0 := List.getD_append _ _ _ _ (by omega)
        rw [g0]; intro hcon; exact hc1 ⟨by omega, hcon.2⟩
      rw [if_neg hc1', if_pos (by rw [g1]; exact ⟨by rw [List.length_append]; omega, hc2.2⟩)]
    · rename_i hc2
      split at h
      · rename_i hc3
        have g2 : (s ++ t).getD 2 0 = s.getD 2 0 := List.getD_append _ _ _ _ (by omega)
        have hc1' : ¬(1 ≤ (s ++ t).length ∧ (s ++ t).getD 0 0 ≠ 0x1f) := by
          have g0 : (s ++ t).getD 0 0 = s.getD 0 0 := List.getD_append _ _ _ _ (by omega)
          rw [g0]; intro hcon; exact hc1 ⟨by omega, hcon.2⟩
        have hc2' : ¬(2 ≤ (s ++ t).length ∧ (s ++ t).getD 1 0 ≠ 0x8b) := by
          have g1 : (s ++ t).getD 1 0 = s.getD 1 0 := List.getD_append _ _ _ _ (by omega)
          rw [g1]; intro hcon; exact hc2 ⟨by omega, hcon.2⟩
        rw [if_neg hc1', if_neg hc2',
          if_pos (by rw [g2]; exact ⟨by rw [List.length_append]; omega, hc3.2⟩)]
      · split at h
        · simp at h
        · cases hE : hdrExtra (s.getD 3 0) s with
          | none => simp only [hE] at h; simp at h
          | some p1 =>
            simp only [hE] at h
            cases hN : hdrZeroField (s.getD 3 0) GZIP_FLAG_FNAME s p1 with
            | none => simp only [hN] at h; simp at h
            | some p2 =>
              simp only [hN] at h
              cases hC : hdrZeroField (s.getD 3 0) GZIP_FLAG_FCOMMENT s p2 with
              | none => simp only [hC] at h; simp at h
              | some p3 =>
                simp only [hC] at h
                cases hH : hdrCrc16 (s.getD 3 0) s p3 with
                | none => simp only [hH] at h; simp at h
                | some p4 => simp only [hH] at h; simp at h
/-! ## One gzip member (the zlib decompress collaborator's framing)

`parseMember` is the modelled engine's view of one member: full header, the
framed deflate body, then the 8-byte CRC-32/size trailer, which it verifies
as zlib does.  `complete payload rest` exposes `rest` as the engine's
`unused_data`. -/

inductive MRes where
  | complete (payload rest : List Nat)
  | incomplete
  | bad
deriving DecidableEq

def parseMember (s : List Nat) : MRes :=
  match parseHeader s with
  | .bad => .bad
  | .incomplete => .incomplete
  | .complete hlen =>
    match lebDecode (s.drop hlen) with
    | none => .incomplete
    | some (n, rest) =>
      if rest.length < n + 8 then .incomplete
      else if (rest.drop n).take 8 = buildGzipTrailer (crc32Update 0 (rest.take n)) n then
        .complete (rest.take n) ((rest.drop n).drop 8)
      else .bad

theorem parseMember_complete_append (s t p u : List Nat)
    (h : parseMember s = .complete p u) :
    parseMember (s ++ t) = .complete p (u ++ t) := by
  unfold parseMember at h ⊢
  cases hH : parseHeader s with
  | bad => simp only [hH] at h; exact MRes.noConfusion h
  | incomplete => simp only [hH] at h; exact MRes.noConfusion h
  | complete hlen =>
    simp only [hH] at h
    obtain ⟨hl10, hlle⟩ := parseHeader_complete_bounds s hlen hH
    simp only [parseHeader_complete_append s t hlen hH]
    have hdrop : (s ++ t).drop hlen = s.drop hlen ++ t :=
      List.drop_append_of_le_length hlle
    rw [hdrop]
    cases hL : lebDecode (s.drop hlen) with
    | none => simp only [hL] at h; exact MRes.noConfusion h
    | some nr =>
      obtain ⟨n, rest⟩ := nr
      simp only [hL] at h
      simp only [lebDecode_append _ t _ _ hL]
      by_cases hlen8 : rest.length < n + 8
      · simp only [if_pos hlen8] at h
        exact MRes.noConfusion h
      · simp only [if_neg hlen8] at h
        have hlen8x : ¬((rest ++ t).length < n + 8) := by
          rw [List.length_append]; omega
        have htake : (rest ++ t).take n = rest.take n :=
          List.take_append_of_le_length (by omega)
        have hdropn : (rest ++ t).drop n = rest.drop n ++ t :=
          List.drop_append_of_le_length (by omega)
        have htake8 : (rest.drop n ++ t).take 8 = (rest.drop n).take 8 :=
          List.take_append_of_le_length (by rw [List.length_drop]; omega)
        rw [if_neg hlen8x, htake, hdropn, htake8]
        split at h
        · rename_i htr
          rw [if_pos htr]
          simp only [MRes.complete.injEq] at h ⊢
          refine ⟨h.1, ?_⟩
          rw [List.drop_append_of_le_length (by rw [List.length_drop]; omega), h.2]
        · exact MRes.noConfusion h

theorem parseMember_bad_append (s t : List Nat) (h : parseMember s = .bad) :
    parseMember (s ++ t) = .bad := by
  unfold parseMember at h ⊢
  cases hH : parseHeader s with
  | incomplete => simp only [hH] at h; exact MRes.noConfusion h
  | bad => simp only [parseHeader_bad_append s t hH]
  | complete hlen =>
    simp only [hH] at h
    obtain ⟨hl10, hlle⟩ := parseHeader_complete_bounds s hlen hH
    simp only [parseHeader_complete_append s t hlen hH]
    have hdrop : (s ++ t).drop hlen = s.drop hlen ++ t :=
      List.drop_append_of_le_length hlle
    rw [hdrop]
    cases hL : lebDecode (s.drop hlen) with
    | none => simp only [hL] at h; exact MRes.noConfusion h
    | some nr =>
      obtain ⟨n, rest⟩ := nr
      simp only [hL] at h
      simp only [lebDecode_append _ t _ _ hL]
      by_cases hlen8 : rest.length < n + 8
      · simp only [if_pos hlen8] at h
        exact MRes.noConfusion h
      · simp only [if_neg hlen8] at h
        have hlen8x : ¬((rest ++ t).length < n + 8) := by
          rw [List.length_append]; omega
        have htake : (rest ++ t).take n = rest.take n :=
          List.take_append_of_le_length (by omega)
        have hdropn : (rest ++ t).drop n = rest.drop n ++ t :=
          List.drop_append_of_le_length (by omega)
        have htake8 : (rest.drop n ++ t).take 8 = (rest.drop n).take 8 :=
          List.take_append_of_le_length (by rw [List.length_drop]; omega)
        rw [if_neg hlen8x, htake, hdropn, htake8]
        split at h
        · exact MRes.noConfusion h
        · rename_i htr
          rw [if_neg htr]

theorem lebDecode_rest_length (s u : List Nat) (n : Nat)
    (h : lebDecode s = some (n, u)) : u.length < s.length := by
  induction s generalizing n u with
  | nil => simp [lebDecode] at h
  | cons b rest ih =>
    simp only [lebDecode] at h
    split at h
    · simp only [Option.some.injEq, Prod.mk.injEq] at h
      rw [← h.2]
      simp
    · simp only [Option.map_eq_some'] at h
      obtain ⟨⟨m, r⟩, hmr, heq⟩ := h
      cases heq
      exact Nat.lt_succ_of_lt (ih _ _ hmr)

theorem parseMember_complete_length (s p u : List Nat)
    (h : parseMember s = .complete p u) : u.length + 10 ≤ s.length := by
  unfold parseMember at h
  cases hH : parseHeader s with
  | bad => simp only [hH] at h; exact MRes.noConfusion h
  | incomplete => simp only [hH] at h; exact MRes.noConfusion h
  | complete hlen =>
    simp only [hH] at h
    obtain ⟨hl10, hlle⟩ := parseHeader_complete_bounds s hlen hH
    cases hL : lebDecode (s.drop hlen) with
    | none => simp only [hL] at h; exact MRes.noConfusion h
    | some nr =>
      obtain ⟨n, rest⟩ := nr
      simp only [hL] at h
      split at h
      · exact MRes.noConfusion h
      · split at h
        · rename_i hlen8 htr
          simp only [MRes.complete.injEq] at h
          have hrest : rest.length < (s.drop hlen).length := lebDecode_rest_length _ _ _ hL
          have hdl : (s.drop hlen).length = s.length - hlen := List.length_drop hlen s
          have hu : u.length = rest.length - n - 8 := by
            rw [← h.2]
            simp only [List.length_drop]
          omega
        · exact MRes.noConfusion h

/-- `findZero` on a zero-free block followed by an explicit NUL. -/
theorem findZero_block (a r : List Nat) (ha : 0 ∉ a) :
    findZero (a ++ 0 :: r) = some a.length := by
  induction a with
  | nil => simp [findZero]
  | cons b rb ih =>
    simp only [List.mem_cons, not_or] at ha
    have hb : ¬(b = 0) := fun e => ha.1 e.symm
    simp only [List.cons_append, findZero, if_neg hb, List.append_eq]
    rw [ih ha.2]
    simp

/-! ## A complete member as the write path emits it -/

/-- Terminating flush of the modelled compressor: the framed deflate body for
everything fed so far. -/
def deflateFinish (fed : List Nat) : List Nat := lebEncode fed.length ++ fed

/-- The byte string one gzip member occupies on the wire: header, framed body,
CRC-32/size trailer. -/
def memberBytes (fname : List Nat) (mtime : Option Nat) (now : Nat) (level : Int)
    (payload : List Nat) : List Nat :=
  buildGzipHeader fname mtime now level ++ deflateFinish payload ++
    buildGzipTrailer (crc32Update 0 payload) payload.length

theorem buildGzipHeader_length (fname : List Nat) (mtime : Option Nat) (now : Nat)
    (level : Int) :
    (buildGzipHeader fname mtime now level).length
      = 10 + (if fname = [] then 0 else fname.length + 1) := by
  unfold buildGzipHeader
  by_cases h : fname = []
  · simp [h, le32]
  · simp [h, le32]
    omega

theorem parseHeader_plain (s4 s5 s6 s7 xfl tail10 : Nat) (tail : List Nat) :
    parseHeader (31 :: 139 :: 8 :: 0 :: s4 :: s5 :: s6 :: s7 :: xfl :: tail10 :: tail)
      = .complete 10 := by
  unfold parseHeader hdrExtra hdrZeroField hdrCrc16
  norm_num [List.getD, GZIP_METHOD_DEFLATE, GZIP_FLAG_FEXTRA, GZIP_FLAG_FNAME,
    GZIP_FLAG_FCOMMENT, GZIP_FLAG_FHCRC]

theorem parseHeader_named (s4 s5 s6 s7 xfl tail10 : Nat) (fname rest : List Nat)
    (hf : 0 ∉ fname) :
    parseHeader (31 :: 139 :: 8 :: 8 :: s4 :: s5 :: s6 :: s7 :: xfl :: tail10 ::
        (fname ++ 0 :: rest))
      = .complete (11 + fname.length) := by
  unfold parseHeader hdrExtra hdrZeroField hdrCrc16
  have hz : findZeroFrom
      (31 :: 139 :: 8 :: 8 :: s4 :: s5 :: s6 :: s7 :: xfl :: tail10 :: (fname ++ 0 :: rest))
      10 = some (fname.length + 10) := by
    unfold findZeroFrom
    rw [show List.drop 10
        (31 :: 139 :: 8 :: 8 :: s4 :: s5 :: s6 :: s7 :: xfl :: tail10 :: (fname ++ 0 :: rest))
        = fname ++ 0 :: rest from rfl]
    rw [findZero_block fname rest hf]
    rfl
  norm_num [List.getD, GZIP_METHOD_DEFLATE, GZIP_FLAG_FEXTRA, GZIP_FLAG_FNAME,
    GZIP_FLAG_FCOMMENT, GZIP_FLAG_FHCRC, show (8 : Nat) &&& 4 = 0 from rfl,
    show (8 : Nat) &&& 16 = 0 from rfl, show (8 : Nat) &&& 2 = 0 from rfl]
  rw [hz]
  norm_num
  rw [if_neg (by omega)]
  congr 1
  omega

theorem parseMember_body (hlen : Nat) (s payload t : List Nat)
    (hH : parseHeader s = .complete hlen)
    (hdrop : s.drop hlen
      = lebEncode payload.length ++ payload
          ++ buildGzipTrailer (crc32Update 0 payload) payload.length ++ t) :
    parseMember s = .complete payload t := by
  unfold parseMember
  simp only [hH]
  rw [hdrop]
  have hleb : lebDecode (lebEncode payload.length ++
      (payload ++ (buildGzipTrailer (crc32Update 0 payload) payload.length ++ t)))
      = some (payload.length,
          payload ++ (buildGzipTrailer (crc32Update 0 payload) payload.length ++ t)) :=
    lebDecode_lebEncode _ _
  simp only [List.append_assoc]
  simp only [hleb]
  have htlen : (buildGzipTrailer (crc32Update 0 payload) payload.length).length = 8 := rfl
  have hrlen : ¬((payload ++ (buildGzipTrailer (crc32Update 0 payload) payload.length ++ t)).length
      < payload.length + 8) := by
    simp only [List.length_append, htlen]
    omega
  rw [if_neg hrlen]
  have htake : (payload ++ (buildGzipTrailer (crc32Update 0 payload) payload.length ++ t)).take
      payload.length = payload := List.take_left payload _
  have hdropn : (payload ++ (buildGzipTrailer (crc32Update 0 payload) payload.length ++ t)).drop
      payload.length = buildGzipTrailer (crc32Update 0 payload) payload.length ++ t :=
    List.drop_left payload _
  rw [htake, hdropn]
  have htake8 : (buildGzipTrailer (crc32Update 0 payload) payload.length ++ t).take 8
      = buildGzipTrailer (crc32Update 0 payload) payload.length := by
    rw [← htlen]
    exact List.take_left _ _
  rw [htake8, if_pos rfl]
  have hdrop8 : (buildGzipTrailer (crc32Update 0 payload) payload.length ++ t).drop 8 = t := by
    rw [← htlen]
    exact List.drop_left _ _
  rw [hdrop8]

theorem parseMember_memberBytes (fname : List Nat) (mtime : Option Nat) (now : Nat)
    (level : Int) (payload t : List Nat) (hf : 0 ∉ fname) :
    parseMember (memberBytes fname mtime now level payload ++ t)
      = .complete payload t := by
  by_cases h : fname = []
  · subst h
    refine parseMember_body 10 _ payload t ?_ ?_
    · have : memberBytes [] mtime now level payload ++ t
          = 31 :: 139 :: 8 :: 0 ::
            (match mtime with | none => now | some m => m) % 256 ::
            (match mtime with | none => now | some m => m) / 256 % 256 ::
            (match mtime with | none => now | some m => m) / 65536 % 256 ::
            (match mtime with | none => now | some m => m) / 16777216 % 256 ::
            xflOf level :: 255 ::
            (deflateFinish payload
              ++ buildGzipTrailer (crc32Update 0 payload) payload.length ++ t) := by
        simp [memberBytes, buildGzipHeader, le32, GZIP_METHOD_DEFLATE, GZIP_OS_UNKNOWN]
      rw [this, parseHeader_plain]
    · have : memberBytes [] mtime now level payload ++ t
          = buildGzipHeader [] mtime now level
            ++ (deflateFinish payload
              ++ (buildGzipTrailer (crc32Update 0 payload) payload.length ++ t)) := by
        simp [memberBytes]
      rw [this]
      have hlen10 : (buildGzipHeader [] mtime now level).length = 10 := by
        simp [buildGzipHeader_length]
      rw [← hlen10, List.drop_left]
      simp [deflateFinish, List.append_assoc]
  · refine parseMember_body (11 + fname.length) _ payload t ?_ ?_
    · have : memberBytes fname mtime now level payload ++ t
          = 31 :: 139 :: 8 :: 8 ::
            (match mtime with | none => now | some m => m) % 256 ::
            (match mtime with | none => now | some m => m) / 256 % 256 ::
            (match mtime with | none => now | some m => m) / 65536 % 256 ::
            (match mtime with | none => now | some m => m) / 16777216 % 256 ::
            xflOf level :: 255 ::
            (fname ++ 0 ::
              (deflateFinish payload
                ++ buildGzipTrailer (crc32Update 0 payload) payload.length ++ t)) := by
        simp [memberBytes, buildGzipHeader, le32, GZIP_METHOD_DEFLATE, GZIP_OS_UNKNOWN,
          GZIP_FLAG_FNAME, h]
      rw [this, parseHeader_named _ _ _ _ _ _ _ _ hf]
    · have heq : memberBytes fname mtime now level payload ++ t
          = buildGzipHeader fname mtime now level
            ++ (deflateFinish payload
              ++ (buildGzipTrailer (crc32Update 0 payload) payload.length ++ t)) := by
        simp [memberBytes]
      rw [heq]
      have hlen11 : (buildGzipHeader fname mtime now level).length = 11 + fname.length := by
        rw [buildGzipHeader_length]
        simp [h]
        omega
      rw [← hlen11, List.drop_left]
      simp [deflateFinish, List.append_assoc]

/-! ## Error taxonomy

One constructor per Python exception class the embedded code can raise. -/

inductive Err where
  | notWritable
  | notReadable
  | closedStream
  | notOpened
  | badGzip
  | ioError
  | invalidValue
  | typeErr
  | unsupported
deriving DecidableEq, Repr

/-- State errors of §7 of the spec: wrong mode, closed stream, not opened. -/
def Err.isStateError : Err → Bool
  | .notWritable => true
  | .notReadable => true
  | .closedStream => true
  | .notOpened => true
  | _ => false

/-! ## Whole-stream gzip semantics

`gunzipAll s` is the reference meaning of the read side over a complete byte
string: parse a member, strip NUL padding, continue with the next member.
Defined with explicit fuel (each member consumes at least 10 bytes). -/

def gunzipTailF : Nat → List Nat → Except Err (List Nat)
  | 0, _ => .error .badGzip
  | fuel + 1, s =>
    match parseMember s with
    | .complete p u =>
      let u2 := stripZeros u
      if u2 = [] then .ok p
      else
        match gunzipTailF fuel u2 with
        | .error er => .error er
        | .ok q => .ok (p ++ q)
    | .incomplete => if s = [] then .ok [] else .error .badGzip
    | .bad => .error .badGzip

def gunzipAll (s : List Nat) : Except Err (List Nat) := gunzipTailF (s.length + 1) s

theorem gunzipTailF_fuel (fuel : Nat) (s : List Nat) (h : s.length < fuel) :
    gunzipTailF fuel s = gunzipAll s := by
  induction fuel using Nat.strong_induction_on generalizing s with
  | _ fuel ih =>
    match fuel with
    | 0 => omega
    | f + 1 =>
      unfold gunzipAll
      rw [gunzipTailF, gunzipTailF]
      cases hm : parseMember s with
      | incomplete => rfl
      | bad => rfl
      | complete p u =>
        simp only
        have hul : u.length + 10 ≤ s.length := parseMember_complete_length s p u hm
        have hu2 : (stripZeros u).length ≤ u.length := stripZeros_length_le u
        by_cases hz : stripZeros u = []
        · rw [if_pos hz, if_pos hz]
        · rw [if_neg hz, if_neg hz,
            ih f (by omega) _ (by omega), ih s.length (by omega) _ (by omega)]

theorem stripZeros_append_of_ne (u rest : List Nat) (h : stripZeros u ≠ []) :
    stripZeros (u ++ rest) = stripZeros u ++ rest := by
  induction u with
  | nil => simp [stripZeros] at h
  | cons b tb ih =>
    by_cases hb : b = 0
    · subst hb
      have hsz : stripZeros ((0 : Nat) :: tb) = stripZeros tb := by
        simp [stripZeros, List.dropWhile]
      rw [hsz] at h
      simp only [List.cons_append]
      have hsz2 : stripZeros ((0 : Nat) :: (tb ++ rest)) = stripZeros (tb ++ rest) := by
        simp [stripZeros, List.dropWhile]
      rw [hsz2, hsz, ih h]
    · rw [stripZeros_cons_of_ne _ _ hb]
      simp only [List.cons_append]
      rw [stripZeros_cons_of_ne _ _ hb]

theorem stripZeros_all_zeros (u : List Nat) (h : stripZeros u = []) :
    allZeros u = true := by
  induction u with
  | nil => rfl
  | cons b tb ih =>
    by_cases hb : b = 0
    · subst hb
      have hsz : stripZeros ((0 : Nat) :: tb) = stripZeros tb := by
        simp [stripZeros, List.dropWhile]
      rw [hsz] at h
      simpa [allZeros] using ih h
    · rw [stripZeros_cons_of_ne _ _ hb] at h
      simp at h

theorem allZeros_stripZeros_append (u rest : List Nat) (h : allZeros u = true) :
    stripZeros (u ++ rest) = stripZeros rest := by
  induction u with
  | nil => simp
  | cons b tb ih =>
    simp only [allZeros, List.all_cons, Bool.and_eq_true, decide_eq_true_eq] at h
    obtain ⟨hb, htb⟩ := h
    subst hb
    simp only [List.cons_append]
    have : stripZeros ((0 : Nat) :: (tb ++ rest)) = stripZeros (tb ++ rest) := by
      simp [stripZeros, List.dropWhile]
    rw [this]
    exact ih htb

/-! ## The decompress engine (model of `zlib.decompressobj(wbits=31)`)

Modelled from the spec's engine contract: `decompress` accumulates raw bytes
until one whole member can be parsed, then emits its payload and reports the
remaining bytes as `unused_data`; feeding a finished engine only grows
`unused_data`; `flush` errors on a truncated member ("a flush failure is a
fatal decode error"). -/

structure Decomp where
  raw : List Nat
  done : Bool
  leftover : List Nat
deriving DecidableEq, Repr

def Decomp.fresh : Decomp := ⟨[], false, []⟩

/-- `engine.unused_data`: bytes past the end of the finished member. -/
def unusedData (e : Decomp) : List Nat := if e.done then e.leftover else []

/-- `engine.decompress(chunk)`. -/
def decompStep (e : Decomp) (chunk : List Nat) : Except Err (List Nat × Decomp) :=
  if e.done then .ok ([], { e with leftover := e.leftover ++ chunk })
  else
    match parseMember (e.raw ++ chunk) with
    | .incomplete => .ok ([], ⟨e.raw ++ chunk, false, []⟩)
    | .bad => .error .badGzip
    | .complete p u => .ok (p, ⟨[], true, u⟩)

/-- `engine.flush()` at transport EOF. -/
def decompFlush (e : Decomp) : Except Err (List Nat) :=
  if e.done then .ok []
  else if e.raw = [] then .ok []
  else .error .badGzip

/-- The multi-member resolution loop of `_fill_buffer`: while `unused_data`
remains, strip NUL padding and start a fresh decompressor on the remainder. -/
def resolveUnusedF : Nat → Decomp → Except Err (List Nat × Decomp)
  | 0, _ => .error .badGzip
  | fuel + 1, e =>
    if unusedData e = [] then .ok ([], e)
    else if stripZeros (unusedData e) = [] then .ok ([], e)
    else
      match decompStep Decomp.fresh (stripZeros (unusedData e)) with
      | .error er => .error er
      | .ok (out, e2) =>
        match resolveUnusedF fuel e2 with
        | .error er => .error er
        | .ok (out2, e3) => .ok (out ++ out2, e3)

/-- One non-empty transport chunk fed through `decompress` plus the unused-data
resolution loop, as `_fill_buffer` performs it. -/
def fillStepEngine (e : Decomp) (chunk : List Nat) : Except Err (List Nat × Decomp) :=
  match decompStep e chunk with
  | .error er => .error er
  | .ok (out, e1) =>
    match resolveUnusedF ((unusedData e1).length + 2) e1 with
    | .error er => .error er
    | .ok (out2, e2) => .ok (out ++ out2, e2)

/-- What the remainder of the logical stream means, given the engine state and
the transport bytes not yet read. -/
def pendingSem (e : Decomp) (rest : List Nat) : Except Err (List Nat) :=
  if e.done then
    if stripZeros (e.leftover ++ rest) = [] then .ok []
    else gunzipAll (stripZeros (e.leftover ++ rest))
  else gunzipAll (e.raw ++ rest)

/-- Engine states occurring at `_fill_buffer` boundaries. -/
def EngineInv (e : Decomp) : Prop :=
  (e.done = true → allZeros e.leftover = true) ∧
  (e.done = false → parseMember e.raw = .incomplete)

theorem engineInv_fresh : EngineInv Decomp.fresh := by
  constructor
  · intro h
    simp [Decomp.fresh] at h
  · intro _
    rfl

/-- The part of `EngineInv` that holds for every engine the resolution loop is
handed: an unfinished engine only ever holds an incomplete member prefix. -/
def ActiveOK (e : Decomp) : Prop := e.done = false → parseMember e.raw = .incomplete

theorem gunzipAll_step (s p u : List Nat) (hm : parseMember s = .complete p u) :
    gunzipAll s
      = if stripZeros u = [] then .ok p
        else
          match gunzipAll (stripZeros u) with
          | .error er => .error er
          | .ok q => .ok (p ++ q) := by
  unfold gunzipAll
  rw [gunzipTailF]
  simp only [hm]
  by_cases hz : stripZeros u = []
  · rw [if_pos hz, if_pos hz]
  · rw [if_neg hz, if_neg hz]
    have hul := parseMember_complete_length s p u hm
    have hsl := stripZeros_length_le u
    rw [gunzipTailF_fuel s.length _ (by omega)]
    rfl

theorem gunzipAll_bad (s : List Nat) (hm : parseMember s = .bad) :
    gunzipAll s = .error .badGzip := by
  unfold gunzipAll
  rw [gunzipTailF]
  simp only [hm]

theorem gunzipAll_incomplete (s : List Nat) (hm : parseMember s = .incomplete) :
    gunzipAll s = if s = [] then .ok [] else .error .badGzip := by
  unfold gunzipAll
  rw [gunzipTailF]
  simp only [hm]

/-- Correctness and invariant-establishment of the unused-data resolution
loop: its output prepended to the meaning of the resulting engine state is the
meaning of the input engine state, for any remaining transport bytes. -/
theorem resolveUnused_sem (fuel : Nat) (e : Decomp) (rest : List Nat)
    (hfuel : (unusedData e).length + 2 ≤ fuel) (hok : ActiveOK e) :
    (pendingSem e rest
      = match resolveUnusedF fuel e with
        | .error er => .error er
        | .ok (out, e2) =>
          match pendingSem e2 rest with
          | .error er => .error er
          | .ok q => .ok (out ++ q))
    ∧ (∀ out e3, resolveUnusedF fuel e = .ok (out, e3) → EngineInv e3) := by
  induction fuel using Nat.strong_induction_on generalizing e with
  | _ fuel ih =>
    match fuel with
    | 0 => omega
    | f + 1 =>
      rw [resolveUnusedF]
      by_cases hu : unusedData e = []
      · rw [if_pos hu]
        refine ⟨?_, ?_⟩
        · cases hp : pendingSem e rest <;> simp [hp]
        · intro out e3 h3
          simp only [Except.ok.injEq, Prod.mk.injEq] at h3
          rw [← h3.2]
          by_cases hd : e.done
          · constructor
            · intro _
              have : e.leftover = [] := by
                unfold unusedData at hu
                rw [if_pos hd] at hu
                exact hu
              rw [this]
              rfl
            · intro hcon
              rw [hcon] at hd
              simp at hd
          · exact ⟨fun hcon => absurd hcon hd, hok⟩
      · rw [if_neg hu]
        have hd : e.done = true := by
          by_cases hd : e.done
          · exact hd
          · unfold unusedData at hu
            simp [hd] at hu
        by_cases hz : stripZeros (unusedData e) = []
        · rw [if_pos hz]
          refine ⟨?_, ?_⟩
          · cases hp : pendingSem e rest <;> simp [hp]
          · intro out e3 h3
            simp only [Except.ok.injEq, Prod.mk.injEq] at h3
            rw [← h3.2]
            constructor
            · intro _
              unfold unusedData at hz
              rw [if_pos hd] at hz
              exact stripZeros_all_zeros _ hz
            · intro hcon
              rw [hcon] at hd
              simp at hd
        · rw [if_neg hz]
          have hlu : e.leftover = unusedData e := by
            unfold unusedData
            rw [if_pos hd]
          have hpend : pendingSem e rest
              = gunzipAll (stripZeros (unusedData e) ++ rest) := by
            unfold pendingSem
            rw [if_pos hd, hlu, stripZeros_append_of_ne _ _ hz]
            rw [if_neg (by
              intro hcon
              rw [List.append_eq_nil] at hcon
              exact hz hcon.1)]
          cases hu2 : stripZeros (unusedData e) with
          | nil => exact absurd hu2 hz
          | cons b tb =>
            rw [← hu2]
            unfold decompStep Decomp.fresh
            simp only [List.nil_append, if_neg (by simp : ¬(false = true))]
            cases hm : parseMember (stripZeros (unusedData e)) with
            | incomplete =>
              simp only
              obtain ⟨f1, rfl⟩ : ∃ f1, f = f1 + 1 := ⟨f - 1, by omega⟩
              rw [resolveUnusedF]
              have hemp : unusedData ⟨stripZeros (unusedData e), false, []⟩ = [] := rfl
              rw [if_pos hemp]
              refine ⟨?_, ?_⟩
              · rw [hpend]
                have : pendingSem ⟨stripZeros (unusedData e), false, []⟩ rest
                    = gunzipAll (stripZeros (unusedData e) ++ rest) := by
                  unfold pendingSem
                  simp
                simp only [this]
                cases hg : gunzipAll (stripZeros (unusedData e) ++ rest) <;> simp [hg]
              · intro out e3 h3
                simp only [Except.ok.injEq, Prod.mk.injEq] at h3
                rw [← h3.2]
                refine ⟨?_, ?_⟩
                · intro hcon
                  simp at hcon
                · intro _
                  exact hm
            | bad =>
              simp only
              rw [hpend, gunzipAll_bad _ (parseMember_bad_append _ _ hm)]
              exact ⟨rfl, by intro out e3 h3; simp at h3⟩
            | complete p u2 =>
              simp only
              have hul : u2.length + 10 ≤ (stripZeros (unusedData e)).length :=
                parseMember_complete_length _ _ _ hm
              have hsle : (stripZeros (unusedData e)).length ≤ (unusedData e).length :=
                stripZeros_length_le _
              have hih := ih f (by omega) ⟨[], true, u2⟩
                (by simp [unusedData]; omega)
                (by intro hcon; simp at hcon)
              obtain ⟨ihsem, ihinv⟩ := hih
              have hpend2 : pendingSem ⟨[], true, u2⟩ rest
                  = if stripZeros (u2 ++ rest) = [] then .ok []
                    else gunzipAll (stripZeros (u2 ++ rest)) := by
                unfold pendingSem
                simp
              have hstep : gunzipAll (stripZeros (unusedData e) ++ rest)
                  = match pendingSem ⟨[], true, u2⟩ rest with
                    | .error er => .error er
                    | .ok q => .ok (p ++ q) := by
                rw [gunzipAll_step _ p (u2 ++ rest)
                  (parseMember_complete_append _ _ _ _ hm), hpend2]
                by_cases hz2 : stripZeros (u2 ++ rest) = []
                · rw [if_pos hz2, if_pos hz2]
                  simp
                · rw [if_neg hz2, if_neg hz2]
              refine ⟨?_, ?_⟩
              · rw [hpend, hstep, ihsem]
                cases hr : resolveUnusedF f ⟨[], true, u2⟩ with
                | error er => simp
                | ok pe =>
                  obtain ⟨o2, e3⟩ := pe
                  simp only
                  cases hp3 : pendingSem e3 rest <;> simp [hp3]
              · intro out e3 h3
                cases hr : resolveUnusedF f ⟨[], true, u2⟩ with
                | error er =>
                  rw [hr] at h3
                  simp at h3
                | ok pe =>
                  obtain ⟨o2, e4⟩ := pe
                  rw [hr] at h3
                  simp only [Except.ok.injEq, Prod.mk.injEq] at h3
                  rw [← h3.2]
                  exact ihinv o2 e4 hr

/-- At transport EOF the engine flush produces exactly the pending meaning of
the stream (empty on clean ends, a decode error on a truncated member). -/
theorem pendingSem_eof (e : Decomp) (hinv : EngineInv e) :
    pendingSem e [] = decompFlush e := by
  unfold pendingSem decompFlush
  by_cases hd : e.done
  · rw [if_pos hd, if_pos hd]
    have hz : allZeros e.leftover = true := hinv.1 hd
    rw [List.append_nil]
    rw [if_pos (by
      have := allZeros_stripZeros_append e.leftover [] hz
      simpa using this)]
  · rw [if_neg hd, if_neg hd]
    have hraw : parseMember e.raw = .incomplete := hinv.2 (by
      cases hde : e.done
      · rfl
      · exact absurd hde hd)
    rw [List.append_nil]
    rw [gunzipAll_incomplete _ hraw]

/-- One `_fill_buffer` engine step is sound for the pending-stream meaning and
establishes the engine invariant. -/
theorem fillStepEngine_sem (e : Decomp) (chunk rest : List Nat) :
    (pendingSem e (chunk ++ rest)
      = match fillStepEngine e chunk with
        | .error er => .error er
        | .ok (out, e2) =>
          match pendingSem e2 rest with
          | .error er => .error er
          | .ok q => .ok (out ++ q))
    ∧ (∀ out e2, fillStepEngine e chunk = .ok (out, e2) → EngineInv e2) := by
  unfold fillStepEngine decompStep
  by_cases hd : e.done
  · rw [if_pos hd]
    simp only
    have e1eq : pendingSem e (chunk ++ rest)
        = pendingSem { e with leftover := e.leftover ++ chunk } rest := by
      unfold pendingSem
      rw [if_pos hd, if_pos hd]
      rw [List.append_assoc]
    obtain ⟨rsem, rinv⟩ := resolveUnused_sem
      ((unusedData { e with leftover := e.leftover ++ chunk }).length + 2)
      { e with leftover := e.leftover ++ chunk } rest (le_refl _)
      (by intro hcon; rw [hcon] at hd; simp at hd)
    refine ⟨?_, ?_⟩
    · rw [e1eq, rsem]
      cases hr : resolveUnusedF ((unusedData { e with leftover := e.leftover ++ chunk }).length + 2)
          { e with leftover := e.leftover ++ chunk } with
      | error er => simp
      | ok pe =>
        obtain ⟨o2, e3⟩ := pe
        simp only
        cases hp : pendingSem e3 rest <;> simp [hp]
    · intro out e2 h2
      cases hr : resolveUnusedF ((unusedData { e with leftover := e.leftover ++ chunk }).length + 2)
          { e with leftover := e.leftover ++ chunk } with
      | error er => rw [hr] at h2; simp at h2
      | ok pe =>
        obtain ⟨o2, e3⟩ := pe
        rw [hr] at h2
        simp only [Except.ok.injEq, Prod.mk.injEq] at h2
        rw [← h2.2]
        exact rinv o2 e3 hr
  · rw [if_neg hd]
    cases hm : parseMember (e.raw ++ chunk) with
    | incomplete =>
      simp only
      have hru : resolveUnusedF
          ((unusedData ⟨e.raw ++ chunk, false, []⟩).length + 2)
          ⟨e.raw ++ chunk, false, []⟩ = .ok ([], ⟨e.raw ++ chunk, false, []⟩) := by
        rw [resolveUnusedF]
        rw [if_pos (show unusedData ⟨e.raw ++ chunk, false, []⟩ = [] from rfl)]
      rw [hru]
      simp only
      have e1eq : pendingSem e (chunk ++ rest)
          = pendingSem ⟨e.raw ++ chunk, false, []⟩ rest := by
        unfold pendingSem
        rw [if_neg hd, if_neg (by simp : ¬(false = true))]
        rw [List.append_assoc]
      refine ⟨?_, ?_⟩
      · rw [e1eq]
        cases hp : pendingSem ⟨e.raw ++ chunk, false, []⟩ rest <;> simp [hp]
      · intro out e2 h2
        simp only [Except.ok.injEq, Prod.mk.injEq] at h2
        rw [← h2.2]
        exact ⟨by intro hcon; simp at hcon, by intro _; exact hm⟩
    | bad =>
      simp only
      have lhs : pendingSem e (chunk ++ rest) = .error .badGzip := by
        unfold pendingSem
        rw [if_neg hd, ← List.append_assoc]
        exact gunzipAll_bad _ (parseMember_bad_append _ _ hm)
      exact ⟨lhs, by intro out e2 h2; simp at h2⟩
    | complete p u =>
      simp only
      obtain ⟨rsem, rinv⟩ := resolveUnused_sem
        ((unusedData ⟨[], true, u⟩).length + 2) ⟨[], true, u⟩ rest (le_refl _)
        (by intro hcon; simp at hcon)
      have e1eq : pendingSem e (chunk ++ rest)
          = match pendingSem ⟨[], true, u⟩ rest with
            | .error er => .error er
            | .ok q => .ok (p ++ q) := by
        unfold pendingSem
        rw [if_neg hd, ← List.append_assoc]
        rw [gunzipAll_step _ p (u ++ rest) (parseMember_complete_append _ _ _ _ hm)]
        rw [if_pos rfl]
        by_cases hz2 : stripZeros (u ++ rest) = []
        · rw [if_pos hz2, if_pos hz2]
          simp
        · rw [if_neg hz2, if_neg hz2]
      refine ⟨?_, ?_⟩
      · rw [e1eq, rsem]
        cases hr : resolveUnusedF ((unusedData ⟨[], true, u⟩).length + 2) ⟨[], true, u⟩ with
        | error er => simp
        | ok pe =>
          obtain ⟨o2, e3⟩ := pe
          simp only
          cases hp : pendingSem e3 rest <;> simp [hp]
      · intro out e2 h2
        cases hr : resolveUnusedF ((unusedData ⟨[], true, u⟩).length + 2) ⟨[], true, u⟩ with
        | error er => rw [hr] at h2; simp at h2
        | ok pe =>
          obtain ⟨o2, e3⟩ := pe
          rw [hr] at h2
          simp only [Except.ok.injEq, Prod.mk.injEq] at h2
          rw [← h2.2]
          exact rinv o2 e3 hr

/-! ## The transport (an open `aiofiles` handle / external async file object) -/

structure AFile where
  data : List Nat
  pos : Nat
  closed : Bool
  failWrite : Bool
  failClose : Bool
deriving DecidableEq, Repr

def AFile.read (f : AFile) (n : Nat) : Except Err (List Nat × AFile) :=
  if f.closed then .error .ioError
  else
    let chunk := (f.data.drop f.pos).take n
    .ok (chunk, { f with pos := f.pos + chunk.length })

def AFile.write (f : AFile) (bs : List Nat) : Except Err AFile :=
  if f.closed ∨ f.failWrite then .error .ioError
  else .ok { f with data := f.data ++ bs }

def AFile.close (f : AFile) : Except Err AFile :=
  if f.failClose then .error .ioError else .ok { f with closed := true }

def AFile.seekStart (f : AFile) : Except Err AFile :=
  if f.closed then .error .ioError else .ok { f with pos := 0 }

/-! ## The compress engine (model of `zlib.compressobj(level, wbits=-15)`)

Modelled from the spec's engine contract: an engine that buffers its input and
emits the whole framed body on the terminating flush; the sync flush emits
nothing because nothing is pending at the container level. -/

structure Comp where
  level : Int
  fed : List Nat
deriving DecidableEq, Repr

def compStep (c : Comp) (data : List Nat) : List Nat × Comp :=
  ([], { c with fed := c.fed ++ data })

def compSyncFlush (c : Comp) : List Nat × Comp := ([], c)

def compFinish (c : Comp) : List Nat := deflateFinish c.fed

/-- `self._engine`: dynamically either a compressor, a decompressor, or not
yet initialised (`None`). -/
inductive Engine where
  | engNone
  | comp (c : Comp)
  | decomp (d : Decomp)
deriving DecidableEq, Repr

/-! ## `AsyncGzipBinaryFile` -/

structure BinFile where
  modeOp : Char
  modePlus : Bool
  writingMode : Bool
  chunkSize : Nat
  compresslevel : Int
  headerMtime : Option Nat
  headerFilename : List Nat
  closefd : Bool
  file : Option AFile
  engine : Engine
  buffer : List Nat
  bufferOffset : Nat
  isClosed : Bool
  eof : Bool
  ownsFile : Bool
  crc : Nat
  inputSize : Nat
  position : Nat
  mtime : Option Nat
  headerProbe : List Nat
deriving DecidableEq, Repr

/-- `os.SEEK_SET` / `os.SEEK_CUR` / `os.SEEK_END`. -/
def SEEK_SET : Nat := 0
def SEEK_CUR : Nat := 1
def SEEK_END : Nat := 2

/-- `_parse_mode_tokens` scanning loop. -/
def parseModeLoop (cs : List Char) (op : Option Char) (sawB sawT plus : Bool) :
    Except Err (Option Char × Bool × Bool × Bool) :=
  match cs with
  | [] => .ok (op, sawB, sawT, plus)
  | c :: rest =>
    if c = 'r' ∨ c = 'w' ∨ c = 'a' ∨ c = 'x' then
      if op.isSome then .error .invalidValue
      else parseModeLoop rest (some c) sawB sawT plus
    else if c = 'b' then
      if sawB then .error .invalidValue else parseModeLoop rest op true sawT plus
    else if c = 't' then
      if sawT then .error .invalidValue else parseModeLoop rest op sawB true plus
    else if c = '+' then
      if plus then .error .invalidValue else parseModeLoop rest op sawB sawT true
    else .error .invalidValue

/-- `_parse_mode_tokens(mode)` (the `TypeError` for non-string input cannot
arise in the typed embedding). -/
def parseModeTokens (mode : List Char) : Except Err (Char × Bool × Bool × Bool) :=
  if mode = [] then .error .invalidValue
  else
    match parseModeLoop mode none false false false with
    | .error er => .error er
    | .ok (op, b, t, p) =>
      match op with
      | none => .error .invalidValue
      | some c =>
        if b ∧ t then .error .invalidValue
        else .ok (c, b, t, p)

/-- `_validate_compresslevel`. -/
def validateCompresslevel (compresslevel : Int) : Except Err Unit :=
  if ¬(-1 ≤ compresslevel ∧ compresslevel ≤ 9) then .error .invalidValue else .ok ()

/-- `_validate_chunk_size`. -/
def validateChunkSize (chunkSize : Int) : Except Err Unit :=
  if chunkSize ≤ 0 then .error .invalidValue else .ok ()

/-- `_normalize_mtime` (the `TypeError` branch cannot arise in the typed
embedding). -/
def normalizeMtime (mtime : Option Int) : Except Err (Option Nat) :=
  match mtime with
  | none => .ok none
  | some m => if m < 0 then .error .invalidValue else .ok (some m.toNat)

/-- `AsyncGzipBinaryFile.__init__`.  `filename` is the target path as bytes
(`none` when only a `fileobj` is supplied, signalled by `hasFileobj`);
`headerFilename` stands in for the `_derive_header_filename` result computed
from `original_filename`/`filename` (basename and `.gz`-stripping of OS paths
are not remodelled). -/
def binInit (filename : Option (List Nat)) (hasFileobj : Bool) (mode : List Char)
    (chunkSize : Int) (compresslevel : Int) (mtime : Option Int)
    (headerFilename : List Nat) (closefd : Option Bool) : Except Err BinFile :=
  if filename = none ∧ ¬hasFileobj then .error .invalidValue
  else if filename = some [] then .error .invalidValue
  else
    match validateChunkSize chunkSize with
    | .error er => .error er
    | .ok _ =>
      match parseModeTokens mode with
      | .error er => .error er
      | .ok (op, _, sawT, plus) =>
        if sawT then .error .invalidValue
        else if ¬(op = 'r' ∨ op = 'w' ∨ op = 'a' ∨ op = 'x') then .error .invalidValue
        else
          let writing := op = 'w' ∨ op = 'a' ∨ op = 'x'
          match (if writing then validateCompresslevel compresslevel else .ok ()) with
          | .error er => .error er
          | .ok _ =>
            match normalizeMtime mtime with
            | .error er => .error er
            | .ok mtimeN =>
              .ok { modeOp := op, modePlus := plus, writingMode := writing,
                    chunkSize := chunkSize.toNat, compresslevel := compresslevel,
                    headerMtime := mtimeN, headerFilename := headerFilename,
                    closefd := closefd.getD (¬hasFileobj), file := none,
                    engine := .engNone, buffer := [], bufferOffset := 0,
                    isClosed := false, eof := false, ownsFile := false,
                    crc := 0, inputSize := 0, position := 0, mtime := none,
                    headerProbe := [] }

/-- `__aenter__` given the already-attached transport handle `f` (for the
owned path, the handle freshly opened by `aiofiles.open`; for the external
path, the supplied `fileobj`).  `now` stands in for `int(time.time())`. -/
def binAenterCore (st : BinFile) (f : AFile) (owns : Bool) (now : Nat) :
    Except Err BinFile :=
  let st1 := { st with file := some f, ownsFile := owns }
  if st1.writingMode then
    let header := buildGzipHeader st1.headerFilename st1.headerMtime now st1.compresslevel
    match AFile.write f header with
    | .error er => .error er
    | .ok f2 =>
      .ok { st1 with
            file := some f2
            engine := .comp { level := st1.compresslevel, fed := [] }
            crc := 0, inputSize := 0 }
  else
    .ok { st1 with
          engine := .decomp Decomp.fresh
          position := 0, mtime := none, headerProbe := [] }

/-- `__aenter__` on the owned-transport path; `content` is what the opened
file holds (empty for a fresh write target). -/
def binAenter (st : BinFile) (content : List Nat) (now : Nat) : Except Err BinFile :=
  let initial := if st.writingMode ∧ st.modeOp ≠ 'a' then [] else content
  binAenterCore st
    { data := initial, pos := 0, closed := false, failWrite := false, failClose := false }
    true now

/-- `tell()`: returns the logical position with no state checks at all. -/
def binTell (st : BinFile) : Except Err Nat := .ok st.position

/-- The mtime header-probe step of `_fill_buffer`: new `(mtime, probe)` pair. -/
def probeMtime (mtime : Option Nat) (headerProbe chunk : List Nat) :
    Option Nat × List Nat :=
  if mtime = none ∧ chunk ≠ [] then
    match tryParseGzipHeaderMtime (headerProbe ++ chunk) with
    | (pm, true) => (pm, [])
    | (_, false) => (mtime, headerProbe ++ chunk)
  else (mtime, headerProbe)

/-- `_fill_buffer`. -/
def binFillBuffer (st : BinFile) : Except Err BinFile :=
  if st.eof ∨ st.file = none then .ok st
  else
    match st.file with
    | none => .ok st
    | some f =>
      match AFile.read f st.chunkSize with
      | .error er => .error er
      | .ok (chunk, f2) =>
        let pr := probeMtime st.mtime st.headerProbe chunk
        if chunk = [] then
          match st.engine with
          | .decomp d =>
            match decompFlush d with
            | .error _ => .error .badGzip
            | .ok remaining =>
              .ok { st with
                    file := some f2, mtime := pr.1, headerProbe := pr.2
                    eof := true, buffer := st.buffer ++ remaining }
          | _ => .error .ioError
        else
          match st.engine with
          | .decomp d =>
            match fillStepEngine d chunk with
            | .error _ => .error .badGzip
            | .ok (out, d2) =>
              .ok { st with
                    file := some f2, mtime := pr.1, headerProbe := pr.2
                    engine := .decomp d2, buffer := st.buffer ++ out }
          | _ => .error .ioError

/-- Fuel bound for the transport-reading loops. -/
def binFuel (st : BinFile) : Nat :=
  match st.file with
  | none => 2
  | some f => f.data.length + 2

/-- The `while not self._eof` accumulation loop of `read(-1)`. -/
def binReadAllLoop : Nat → BinFile → Except Err (List Nat × BinFile)
  | 0, _ => .error .ioError
  | fuel + 1, st =>
    if st.eof then .ok ([], st)
    else
      match binFillBuffer st with
      | .error er => .error er
      | .ok st2 =>
        let chunk := st2.buffer
        let st3 := { st2 with buffer := [] }
        match binReadAllLoop fuel st3 with
        | .error er => .error er
        | .ok (restOut, st4) => .ok (chunk ++ restOut, st4)

/-- The sized-read loop of `read(size)`: pull chunks until the buffer can
satisfy the request, compacting the consumed prefix past the threshold. -/
def binReadSizedLoop : Nat → BinFile → Nat → Except Err BinFile
  | 0, _, _ => .error .ioError
  | fuel + 1, st, size =>
    if st.buffer.length - st.bufferOffset < size ∧ ¬st.eof then
      let st1 :=
        if 65536 < st.bufferOffset then
          { st with buffer := st.buffer.drop st.bufferOffset, bufferOffset := 0 }
        else st
      match binFillBuffer st1 with
      | .error er => .error er
      | .ok st2 => binReadSizedLoop fuel st2 size
    else .ok st

/-- `read(size)`. -/
def binRead (st : BinFile) (size : Int) : Except Err (List Nat × BinFile) :=
  if ¬(st.modeOp = 'r') then .error .notReadable
  else if st.isClosed then .error .closedStream
  else if st.file = none then .error .notOpened
  else
    let size1 := if size < 0 then (-1 : Int) else size
    if size1 = -1 then
      let initChunk := st.buffer.drop st.bufferOffset
      let st1 := { st with buffer := [], bufferOffset := 0 }
      match binReadAllLoop (binFuel st1) st1 with
      | .error er => .error er
      | .ok (restOut, st2) =>
        let data := initChunk ++ restOut
        .ok (data, { st2 with position := st2.position + data.length })
    else
      match binReadSizedLoop (binFuel st + size1.toNat + 2) st size1.toNat with
      | .error er => .error er
      | .ok st2 =>
        let available := st2.buffer.length - st2.bufferOffset
        let actual := min size1.toNat available
        let dataOut := (st2.buffer.drop st2.bufferOffset).take actual
        let st3 := { st2 with
                     bufferOffset := st2.bufferOffset + actual
                     position := st2.position + actual }
        let st4 :=
          if st3.buffer.length ≤ st3.bufferOffset then
            { st3 with buffer := [], bufferOffset := 0 }
          else st3
        .ok (dataOut, st4)

/-- `_consume_bytes` loop. -/
def binConsumeLoop : Nat → BinFile → Nat → Except Err BinFile
  | 0, _, _ => .error .ioError
  | fuel + 1, st, remaining =>
    if remaining = 0 then .ok st
    else
      let takeFrom := fun (st1 : BinFile) =>
        let available := st1.buffer.length - st1.bufferOffset
        let take := min remaining available
        let st2 := { st1 with
                     bufferOffset := st1.bufferOffset + take
                     position := st1.position + take }
        let st3 :=
          if st2.buffer.length ≤ st2.bufferOffset then
            { st2 with buffer := [], bufferOffset := 0 }
          else st2
        binConsumeLoop fuel st3 (remaining - take)
      if st.buffer.length - st.bufferOffset = 0 then
        if st.eof then .ok st
        else
          match binFillBuffer st with
          | .error er => .error er
          | .ok st2 =>
            if st2.buffer.length - st2.bufferOffset = 0 ∧ st2.eof then .ok st2
            else takeFrom st2
      else takeFrom st

/-- `_rewind_reader`. -/
def binRewindReader (st : BinFile) : Except Err BinFile :=
  match st.file with
  | none => .error .notOpened
  | some f =>
    match AFile.seekStart f with
    | .error er => .error er
    | .ok f2 =>
      .ok { st with
            file := some f2, engine := .decomp Decomp.fresh
            buffer := [], bufferOffset := 0, eof := false, position := 0 }

/-- The write-mode zero-fill loop of `seek` (1024-byte zero chunks through
`write`). -/
def binZeroFillLoop (writeOp : BinFile → List Nat → Except Err (Nat × BinFile)) :
    Nat → BinFile → Nat → Except Err BinFile
  | 0, _, _ => .error .ioError
  | _, st, 0 => .ok st
  | fuel + 1, st, remaining + 1 =>
    let k := min 1024 (remaining + 1)
    match writeOp st (zeros k) with
    | .error er => .error er
    | .ok (_, st2) => binZeroFillLoop writeOp fuel st2 (remaining + 1 - k)

/-- `write(data)`. -/
def binWrite (st : BinFile) (data : List Nat) : Except Err (Nat × BinFile) :=
  if ¬st.writingMode then .error .notWritable
  else if st.isClosed then .error .closedStream
  else
    match st.file with
    | none => .error .notOpened
    | some f =>
      let crc2 := crc32Update st.crc data
      let size2 := st.inputSize + data.length
      match st.engine with
      | .comp c =>
        let (compressed, c2) := compStep c data
        if compressed ≠ [] then
          match AFile.write f compressed with
          | .error er => .error er
          | .ok f2 =>
            .ok (data.length, { st with
                 crc := crc2, inputSize := size2, position := size2
                 engine := .comp c2, file := some f2 })
        else
          .ok (data.length, { st with
               crc := crc2, inputSize := size2, position := size2
               engine := .comp c2 })
      | _ => .error .ioError

/-- `seek(offset, whence)`. -/
def binSeek (st : BinFile) (offset : Int) (whence : Nat) : Except Err (Nat × BinFile) :=
  if st.file = none then .error .notOpened
  else if st.writingMode then
    match (if whence = SEEK_CUR then Except.ok ((st.position : Int) + offset)
           else if whence = SEEK_SET then Except.ok offset
           else Except.error Err.invalidValue) with
    | .error er => .error er
    | .ok target =>
      if target < (st.position : Int) then .error .ioError
      else
        let count := (target - (st.position : Int)).toNat
        if 0 < count then
          match binZeroFillLoop binWrite (count + 1) st count with
          | .error er => .error er
          | .ok st2 => .ok (st2.position, st2)
        else .ok (st.position, st)
  else
    match (if whence = SEEK_SET then Except.ok offset
           else if whence = SEEK_CUR then Except.ok ((st.position : Int) + offset)
           else Except.error Err.invalidValue) with
    | .error er => .error er
    | .ok target =>
      if target < 0 then .error .ioError
      else
        match (if target < (st.position : Int) then binRewindReader st else .ok st) with
        | .error er => .error er
        | .ok st1 =>
          let amount := (target - (st1.position : Int)).toNat
          match binConsumeLoop (binFuel st1 + amount + 2) st1 amount with
          | .error er => .error er
          | .ok st2 => .ok (st2.position, st2)

/-- The pull loop of `peek`. -/
def binPeekLoop : Nat → BinFile → Nat → Except Err BinFile
  | 0, _, _ => .error .ioError
  | fuel + 1, st, target =>
    if st.buffer.length - st.bufferOffset < target ∧ ¬st.eof then
      match binFillBuffer st with
      | .error er => .error er
      | .ok st2 =>
        if st2.buffer.length - st2.bufferOffset = 0 ∧ st2.eof then .ok st2
        else binPeekLoop fuel st2 target
    else .ok st

/-- `peek(size)`. -/
def binPeek (st : BinFile) (size : Int) : Except Err (List Nat × BinFile) :=
  if ¬(st.modeOp = 'r') then .error .notReadable
  else if st.file = none then .error .notOpened
  else
    let available := st.buffer.length - st.bufferOffset
    let target : Nat := if size ≤ 0 then (if 0 < available then available else 1)
                        else size.toNat
    match binPeekLoop (binFuel st + 2) st target with
    | .error er => .error er
    | .ok st2 =>
      let available2 := st2.buffer.length - st2.bufferOffset
      .ok ((st2.buffer.drop st2.bufferOffset).take (min target available2), st2)

/-- Index of the first occurrence of byte `b` (model of `bytes.find`). -/
def findByte (b : Nat) : List Nat → Option Nat
  | [] => none
  | c :: rest => if c = b then some 0 else (findByte b rest).map (· + 1)

/-- The accumulation loop of binary `readline`. -/
def binReadlineLoop : Nat → BinFile → Int → Nat → List (List Nat) →
    Except Err (List Nat × BinFile)
  | 0, _, _, _, _ => .error .ioError
  | fuel + 1, st, limit, total, acc =>
    if st.bufferOffset ≥ st.buffer.length ∧ st.eof then .ok (acc.reverse.flatten, st)
    else
      match (if st.bufferOffset ≥ st.buffer.length then binFillBuffer st else .ok st) with
      | .error er => .error er
      | .ok st1 =>
        if st1.bufferOffset ≥ st1.buffer.length ∧ st1.eof then .ok (acc.reverse.flatten, st1)
        else
          let available := st1.buffer.drop st1.bufferOffset
          if available = [] then .ok (acc.reverse.flatten, st1)
          else
            let newlineIndex := findByte 10 available
            let take0 := match newlineIndex with
                         | none => available.length
                         | some i => i + 1
            let take1 := if limit ≠ -1 then min take0 ((limit - (total : Int)).toNat)
                         else take0
            let (st2, acc2, total2) :=
              if 0 < take1 then
                ({ st1 with
                   bufferOffset := st1.bufferOffset + take1
                   position := st1.position + take1 },
                 available.take take1 :: acc, total + take1)
              else (st1, acc, total)
            let st3 :=
              if st2.bufferOffset ≥ st2.buffer.length then
                { st2 with buffer := [], bufferOffset := 0 }
              else st2
            if ((match newlineIndex with
                 | some i => decide (take1 = i + 1)
                 | none => false)
                || (decide (limit ≠ -1) && decide ((limit : Int) ≤ (total2 : Int)))) then
              .ok (acc2.reverse.flatten, st3)
            else binReadlineLoop fuel st3 limit total2 acc2

/-- `readline(limit)`. -/
def binReadline (st : BinFile) (limit : Int) : Except Err (List Nat × BinFile) :=
  if ¬(st.modeOp = 'r') then .error .notReadable
  else if st.isClosed then .error .closedStream
  else if st.file = none then .error .notOpened
  else if limit = 0 then .ok ([], st)
  else binReadlineLoop (binFuel st + st.buffer.length + 3) st limit 0 []

/-- The accumulation loop of `readlines`. -/
def binReadlinesLoop : Nat → BinFile → Int → Nat → List (List Nat) →
    Except Err (List (List Nat) × BinFile)
  | 0, _, _, _, _ => .error .ioError
  | fuel + 1, st, hint, total, acc =>
    match binReadline st (-1) with
    | .error er => .error er
    | .ok (line, st2) =>
      if line = [] then .ok (acc.reverse, st2)
      else
        let total2 := total + line.length
        if 0 < hint ∧ hint ≤ (total2 : Int) then .ok ((line :: acc).reverse, st2)
        else binReadlinesLoop fuel st2 hint total2 (line :: acc)

/-- `readlines(hint)`. -/
def binReadlines (st : BinFile) (hint : Int) : Except Err (List (List Nat) × BinFile) :=
  if ¬(st.modeOp = 'r') then .error .notReadable
  else if st.isClosed then .error .closedStream
  else binReadlinesLoop (binFuel st + st.buffer.length + 3) st hint 0 []

/-- `writelines(lines)`. -/
def binWritelines (st : BinFile) (lines : List (List Nat)) : Except Err BinFile :=
  if ¬st.writingMode then .error .notWritable
  else if st.isClosed then .error .closedStream
  else
    let rec go (st : BinFile) : List (List Nat) → Except Err BinFile
      | [] => .ok st
      | l :: rest =>
        match binWrite st l with
        | .error er => .error er
        | .ok (_, st2) => go st2 rest
    go st lines

/-- `flush()`: sync-flush the compressor (which has nothing pending at the
container level in this engine model), then flush the transport (a no-op for
the in-memory transport). -/
def binFlush (st : BinFile) : Except Err BinFile :=
  if st.isClosed then .error .closedStream
  else if st.writingMode ∧ st.file ≠ none then
    match st.engine with
    | .comp c =>
      let (flushed, c2) := compSyncFlush c
      if flushed ≠ [] then
        match st.file with
        | some f =>
          match AFile.write f flushed with
          | .error er => .error er
          | .ok f2 => .ok { st with engine := .comp c2, file := some f2 }
        | none => .error .notOpened
      else .ok { st with engine := .comp c2 }
    | _ => .error .ioError
  else .ok st

/-- `rewind()`. -/
def binRewind (st : BinFile) : Except Err (Nat × BinFile) :=
  if ¬(st.modeOp = 'r') then .error .ioError
  else binSeek st 0 SEEK_SET

/-- `close()`: marks the stream closed first, then attempts the terminating
flush, trailer write and transport close; the state is returned alongside the
outcome so a failure partway still yields the closed state. -/
def binClose (st : BinFile) : BinFile × Except Err Unit :=
  if st.isClosed then (st, .ok ())
  else
    let st1 := { st with isClosed := true }
    match st1.file with
    | none => (st1, .ok ())
    | some f =>
      if st1.writingMode then
        match st1.engine with
        | .comp c =>
          let remaining := compFinish c
          match (if remaining ≠ [] then AFile.write f remaining else .ok f) with
          | .error er => (st1, .error er)
          | .ok f2 =>
            match AFile.write f2 (buildGzipTrailer st1.crc st1.inputSize) with
            | .error er => ({ st1 with file := some f2 }, .error er)
            | .ok f3 =>
              let st2 := { st1 with file := some f3 }
              if st2.ownsFile ∨ st2.closefd then
                match AFile.close f3 with
                | .error er => (st2, .error er)
                | .ok f4 => ({ st2 with file := some f4 }, .ok ())
              else (st2, .ok ())
        | _ => (st1, .error .ioError)
      else
        if st1.ownsFile ∨ st1.closefd then
          match AFile.close f with
          | .error er => (st1, .error er)
          | .ok f4 => ({ st1 with file := some f4 }, .ok ())
        else (st1, .ok ())

theorem decompStep_error (e : Decomp) (c : List Nat) (er : Err)
    (h : decompStep e c = .error er) : er = .badGzip := by
  unfold decompStep at h
  split at h
  · simp at h
  · split at h
    · simp at h
    · simp only [Except.error.injEq] at h
      rw [← h]
    · simp at h

theorem resolveUnusedF_error (fuel : Nat) (e : Decomp) (er : Err)
    (h : resolveUnusedF fuel e = .error er) : er = .badGzip := by
  induction fuel generalizing e er with
  | zero =>
    rw [resolveUnusedF] at h
    simp only [Except.error.injEq] at h
    rw [← h]
  | succ n ihn =>
    rw [resolveUnusedF] at h
    split at h
    · simp at h
    · split at h
      · simp at h
      · cases hds : decompStep Decomp.fresh (stripZeros (unusedData e)) with
        | error e4 =>
          rw [hds] at h
          simp only [Except.error.injEq] at h
          rw [← h]
          exact decompStep_error _ _ _ hds
        | ok pe2 =>
          obtain ⟨o2, e5⟩ := pe2
          rw [hds] at h
          simp only at h
          cases hr2 : resolveUnusedF n e5 with
          | error e6 =>
            rw [hr2] at h
            simp only [Except.error.injEq] at h
            rw [← h]
            exact ihn e5 e6 hr2
          | ok pe3 =>
            obtain ⟨o3, e6⟩ := pe3
            rw [hr2] at h
            simp at h

theorem fillStepEngine_error (e : Decomp) (c : List Nat) (er : Err)
    (h : fillStepEngine e c = .error er) : er = .badGzip := by
  unfold fillStepEngine at h
  cases hds : decompStep e c with
  | error e2 =>
    rw [hds] at h
    simp only [Except.error.injEq] at h
    rw [← h]
    exact decompStep_error _ _ _ hds
  | ok pe =>
    obtain ⟨o1, e1⟩ := pe
    rw [hds] at h
    simp only at h
    cases hr : resolveUnusedF ((unusedData e1).length + 2) e1 with
    | error e3 =>
      rw [hr] at h
      simp only [Except.error.injEq] at h
      rw [← h]
      exact resolveUnusedF_error _ _ _ hr
    | ok pe2 =>
      obtain ⟨o2, e2y⟩ := pe2
      rw [hr] at h
      simp at h

/-- Characterisation of one `_fill_buffer` call on a read stream: either a
decode error whose meaning is the pending stream's error, or a state whose
freshly appended buffer bytes prefix the remaining pending meaning. -/
theorem binFillBuffer_sem (st : BinFile) (f : AFile) (d : Decomp)
    (hf : st.file = some f) (he : st.engine = .decomp d) (heof : st.eof = false)
    (hclosed : f.closed = false) (hcs : 1 ≤ st.chunkSize)
    (hpos : f.pos ≤ f.data.length) (hinv : EngineInv d) :
    match binFillBuffer st with
    | .error er =>
        er = .badGzip ∧ pendingSem d (f.data.drop f.pos) = .error .badGzip
    | .ok st2 =>
        ∃ f2 d2 out,
          st2.file = some f2 ∧ st2.engine = .decomp d2 ∧ EngineInv d2 ∧
          st2.buffer = st.buffer ++ out ∧ st2.bufferOffset = st.bufferOffset ∧
          st2.chunkSize = st.chunkSize ∧ st2.modeOp = st.modeOp ∧
          st2.isClosed = st.isClosed ∧ st2.position = st.position ∧
          f2.data = f.data ∧ f2.closed = false ∧ f2.pos ≤ f2.data.length ∧
          pendingSem d (f.data.drop f.pos)
            = (if st2.eof then (Except.ok out : Except Err (List Nat))
               else
                 match pendingSem d2 (f.data.drop f2.pos) with
                 | .error er => .error er
                 | .ok q => .ok (out ++ q)) ∧
          (st2.eof = false → f.pos < f2.pos) := by
  have hread : AFile.read f st.chunkSize
      = .ok ((f.data.drop f.pos).take st.chunkSize,
             { f with pos := f.pos + ((f.data.drop f.pos).take st.chunkSize).length }) := by
    unfold AFile.read
    rw [if_neg (show ¬(f.closed = true) from by rw [hclosed]; simp)]
  unfold binFillBuffer
  rw [if_neg (show ¬(st.eof = true ∨ st.file = none) from by rw [heof, hf]; simp)]
  simp only [hf, hread, he]
  by_cases hchunk : (f.data.drop f.pos).take st.chunkSize = []
  · have hdrop : f.data.drop f.pos = [] := by
      rcases hX : f.data.drop f.pos with _ | ⟨b, tb⟩
      · rfl
      · rw [hX] at hchunk
        rcases hc : st.chunkSize with _ | n
        · omega
        · rw [hc] at hchunk
          simp [List.take] at hchunk
    rw [if_pos hchunk]
    have hps := pendingSem_eof d hinv
    cases hfl : decompFlush d with
    | error er =>
      refine ⟨rfl, ?_⟩
      · rw [hdrop, hps, hfl]
        unfold decompFlush at hfl
        split at hfl
        · simp at hfl
        · split at hfl
          · simp at hfl
          · simp only [Except.error.injEq] at hfl
            rw [hfl]
    | ok rem =>
      have hrem : rem = [] := by
        unfold decompFlush at hfl
        split at hfl
        · simp only [Except.ok.injEq] at hfl
          rw [← hfl]
        · split at hfl
          · simp only [Except.ok.injEq] at hfl
            rw [← hfl]
          · simp at hfl
      refine ⟨{ f with pos := f.pos + ((f.data.drop f.pos).take st.chunkSize).length },
        d, rem, rfl, rfl, hinv, rfl, rfl, rfl, rfl, rfl, rfl, rfl, hclosed, ?_, ?_, ?_⟩
      · simp only [hchunk, List.length_nil, Nat.add_zero]
        exact hpos
      · rw [hdrop, hps, hfl, hrem]
        simp
      · intro h
        simp at h
  · rw [if_neg hchunk]
    obtain ⟨fsem, finv⟩ := fillStepEngine_sem d ((f.data.drop f.pos).take st.chunkSize)
      (f.data.drop (f.pos + ((f.data.drop f.pos).take st.chunkSize).length))
    have hsplit : f.data.drop f.pos
        = (f.data.drop f.pos).take st.chunkSize
          ++ f.data.drop (f.pos + ((f.data.drop f.pos).take st.chunkSize).length) := by
      have h1 : f.data.drop (f.pos + ((f.data.drop f.pos).take st.chunkSize).length)
          = (f.data.drop f.pos).drop ((f.data.drop f.pos).take st.chunkSize).length := by
        rw [List.drop_drop]
      rw [h1]
      have h2 : (f.data.drop f.pos).take ((f.data.drop f.pos).take st.chunkSize).length
          = (f.data.drop f.pos).take st.chunkSize := by
        rw [List.length_take]
        rcases Nat.le_total st.chunkSize (f.data.drop f.pos).length with hle | hle
        · rw [min_eq_left hle]
        · rw [min_eq_right hle, List.take_length, List.take_of_length_le hle]
      conv_lhs => rw [← List.take_append_drop ((f.data.drop f.pos).take st.chunkSize).length
        (f.data.drop f.pos)]
      rw [h2]
    cases hstep : fillStepEngine d ((f.data.drop f.pos).take st.chunkSize) with
    | error er =>
      rw [hstep] at fsem
      refine ⟨rfl, ?_⟩
      rw [hsplit, fsem]
      rw [fillStepEngine_error _ _ _ hstep]
    | ok pe =>
      obtain ⟨out, d2⟩ := pe
      rw [hstep] at fsem
      refine ⟨{ f with pos := f.pos + ((f.data.drop f.pos).take st.chunkSize).length },
        d2, out, rfl, rfl, finv out d2 hstep, rfl, rfl, rfl, rfl, rfl, rfl, rfl, hclosed,
        ?_, ?_, ?_⟩
      · simp only [List.length_take, List.length_drop]
        omega
      · rw [if_neg (show ¬(st.eof = true) from by rw [heof]; simp)]
        conv_lhs => rw [hsplit]
        exact fsem
      · intro _
        show f.pos < f.pos + ((f.data.drop f.pos).take st.chunkSize).length
        have : 0 < ((f.data.drop f.pos).take st.chunkSize).length := by
          rcases hX : (f.data.drop f.pos).take st.chunkSize with _ | ⟨b, tb⟩
          · exact absurd hX hchunk
          · simp [hX]
        omega

/-- The payload of the `read(-1)` accumulation loop is exactly the pending
meaning of the remaining stream. -/
theorem binReadAllLoop_sem (fuel : Nat) (st : BinFile) (f : AFile) (d : Decomp)
    (hf : st.file = some f) (he : st.engine = .decomp d) (hinv : EngineInv d)
    (hclosed : f.closed = false) (hcs : 1 ≤ st.chunkSize)
    (hpos : f.pos ≤ f.data.length) (hbuf : st.buffer = [])
    (hfuel : f.data.length + 2 - f.pos ≤ fuel) :
    match binReadAllLoop fuel st with
    | .error er =>
        (if st.eof then (Except.ok [] : Except Err (List Nat))
         else pendingSem d (f.data.drop f.pos)) = .error er
    | .ok (out, _) =>
        (if st.eof then (Except.ok [] : Except Err (List Nat))
         else pendingSem d (f.data.drop f.pos)) = .ok out := by
  induction fuel using Nat.strong_induction_on generalizing st f d with
  | _ fuel ih =>
    match fuel with
    | 0 => omega
    | fl + 1 =>
      rw [binReadAllLoop]
      by_cases heof : st.eof = true
      · rw [if_pos heof, if_pos heof]
      · rw [if_neg heof]
        have heoff : st.eof = false := by
          cases hx : st.eof
          · rfl
          · exact absurd hx heof
        rw [if_neg heof]
        have hfill := binFillBuffer_sem st f d hf he heoff hclosed hcs hpos hinv
        cases hfb : binFillBuffer st with
        | error er =>
          rw [hfb] at hfill
          simp only at hfill
          rw [hfill.2, hfill.1]
        | ok st2 =>
          rw [hfb] at hfill
          simp only at hfill
          obtain ⟨f2, d2, out, h2f, h2e, h2inv, h2buf, _, h2cs, _, _, _, h2data, h2closed,
            h2pos, h2pend, h2prog⟩ := hfill
          rw [hbuf] at h2buf
          simp only [List.nil_append] at h2buf
          simp only
          by_cases h2eof : st2.eof = true
          · rw [if_pos h2eof] at h2pend
            have hfl1 : ∃ m, fl = m + 1 := ⟨fl - 1, by omega⟩
            obtain ⟨m, rfl⟩ := hfl1
            have hloop2 : binReadAllLoop (m + 1) { st2 with buffer := [] }
                = .ok ([], { st2 with buffer := [] }) := by
              rw [binReadAllLoop]
              rw [if_pos (show ({ st2 with buffer := [] } : BinFile).eof = true from h2eof)]
            rw [hloop2]
            rw [h2pend, h2buf]
            simp
          · have h2eoff : st2.eof = false := by
              cases hx : st2.eof
              · rfl
              · exact absurd hx h2eof
            rw [if_neg h2eof] at h2pend
            have hrec := ih fl (by omega) { st2 with buffer := [] } f2 d2
              (by simpa using h2f) (by simpa using h2e) h2inv h2closed
              (by rw [show ({ st2 with buffer := [] } : BinFile).chunkSize
                    = st2.chunkSize from rfl, h2cs]; exact hcs)
              h2pos
              rfl
              (by
                have hd2 : f2.data.length = f.data.length := by rw [h2data]
                have := h2prog h2eoff
                omega)
            rw [show ({ st2 with buffer := [] } : BinFile).eof = st2.eof from rfl] at hrec
            rw [if_neg h2eof] at hrec
            cases hloop : binReadAllLoop fl { st2 with buffer := [] } with
            | error er =>
              rw [hloop] at hrec
              simp only at hrec
              rw [h2data] at hrec
              rw [h2pend, hrec]
            | ok pr =>
              obtain ⟨restOut, st4⟩ := pr
              rw [hloop] at hrec
              simp only at hrec
              rw [h2data] at hrec
              rw [h2pend, hrec, h2buf]

/-- `read(-1)` on a cleanly opened read stream produces exactly the gunzip
meaning of the remaining transport bytes. -/
theorem binRead_all_sem (st : BinFile) (f : AFile) (d : Decomp)
    (hm : st.modeOp = 'r') (hcl : st.isClosed = false)
    (hf : st.file = some f) (he : st.engine = .decomp d) (hinv : EngineInv d)
    (hclosed : f.closed = false) (hcs : 1 ≤ st.chunkSize)
    (hpos : f.pos ≤ f.data.length) (hbuf : st.buffer = [])
    (hbo : st.bufferOffset = 0) (heof : st.eof = false) :
    match binRead st (-1) with
    | .error er => pendingSem d (f.data.drop f.pos) = .error er
    | .ok (data, _) => pendingSem d (f.data.drop f.pos) = .ok data := by
  unfold binRead
  rw [if_neg (show ¬¬(st.modeOp = 'r') from by rw [hm]; simp)]
  rw [if_neg (show ¬(st.isClosed = true) from by rw [hcl]; simp)]
  rw [if_neg (show ¬(st.file = none) from by rw [hf]; simp)]
  rw [if_pos (show ((if (-1 : Int) < 0 then (-1 : Int) else (-1 : Int)) = -1) from by norm_num)]
  have hbf : binFuel { st with buffer := [], bufferOffset := 0 } = f.data.length + 2 := by
    unfold binFuel
    rw [show ({ st with buffer := [], bufferOffset := 0 } : BinFile).file = some f from hf]
  have hloop := binReadAllLoop_sem (binFuel { st with buffer := [], bufferOffset := 0 })
    { st with buffer := [], bufferOffset := 0 } f d
    (show st.file = some f from hf)
    (show st.engine = .decomp d from he)
    hinv hclosed
    (show 1 ≤ st.chunkSize from hcs)
    hpos rfl (by rw [hbf]; omega)
  rw [if_neg (show ¬(st.eof = true) from by rw [heof]; simp)] at hloop
  simp only [hbuf, hbo, List.drop_nil]
  cases hl : binReadAllLoop (binFuel { st with buffer := [], bufferOffset := 0 })
      { st with buffer := [], bufferOffset := 0 } with
  | error er =>
    rw [hl] at hloop
    simp only at hloop
    rw [hloop]
  | ok pr =>
    obtain ⟨restOut, st2⟩ := pr
    rw [hl] at hloop
    simp only at hloop
    rw [hloop]
    simp

/-- Folding `write` over a list of chunks. -/
def writeAll (st : BinFile) : List (List Nat) → Except Err BinFile
  | [] => .ok st
  | c :: rest =>
    match binWrite st c with
    | .error er => .error er
    | .ok (_, st2) => writeAll st2 rest

theorem writeAll_sem (chunks : List (List Nat)) (st : BinFile) (c : Comp)
    (he : st.engine = .comp c) (hw : st.writingMode = true) (hcl : st.isClosed = false)
    (hfs : st.file.isSome) :
    ∃ st2, writeAll st chunks = .ok st2 ∧
      st2.engine = .comp { level := c.level, fed := c.fed ++ chunks.flatten } ∧
      st2.crc = crc32Update st.crc chunks.flatten ∧
      st2.inputSize = st.inputSize + chunks.flatten.length ∧
      st2.file = st.file ∧ st2.isClosed = st.isClosed ∧
      st2.writingMode = st.writingMode ∧ st2.modeOp = st.modeOp ∧
      st2.ownsFile = st.ownsFile ∧ st2.closefd = st.closefd := by
  induction chunks generalizing st c with
  | nil =>
    refine ⟨st, rfl, ?_, ?_, ?_, rfl, rfl, rfl, rfl, rfl, rfl⟩
    · rw [he]
      simp
    · show st.crc = crc32Update st.crc []
      simp only [crc32Update, List.foldl_nil]
      rw [Nat.xor_assoc, Nat.xor_self, Nat.xor_zero]
    · simp
  | cons c0 rest ih =>
    obtain ⟨f, hfeq⟩ : ∃ f, st.file = some f := by
      cases hx : st.file
      · rw [hx] at hfs; simp at hfs
      · exact ⟨_, rfl⟩
    have hwr : binWrite st c0 = .ok (c0.length,
        { st with
          crc := crc32Update st.crc c0
          inputSize := st.inputSize + c0.length
          position := st.inputSize + c0.length
          engine := .comp { level := c.level, fed := c.fed ++ c0 } }) := by
      unfold binWrite
      rw [if_neg (show ¬¬(st.writingMode = true) from by rw [hw]; simp)]
      rw [if_neg (show ¬(st.isClosed = true) from by rw [hcl]; simp)]
      rw [hfeq]
      simp only [he]
      rw [if_neg (show ¬(compStep c c0).1 ≠ [] from by unfold compStep; simp)]
      rfl
    rw [writeAll, hwr]
    simp only
    obtain ⟨st2, hst2, he2, hcrc2, hsz2, hfile2, hcl2, hw2, hm2, ho2, hfd2⟩ :=
      ih { st with
             crc := crc32Update st.crc c0
             inputSize := st.inputSize + c0.length
             position := st.inputSize + c0.length
             engine := .comp { level := c.level, fed := c.fed ++ c0 } }
        { level := c.level, fed := c.fed ++ c0 } rfl
        (show st.writingMode = true from hw) (show st.isClosed = false from hcl)
        (show st.file.isSome from hfs)
    refine ⟨st2, hst2, ?_, ?_, ?_, hfile2, hcl2, hw2, hm2, ho2, hfd2⟩
    · rw [he2]
      simp only [List.flatten_cons, List.append_assoc]
    · rw [hcrc2]
      show crc32Update (crc32Update st.crc c0) rest.flatten =
        crc32Update st.crc (c0 :: rest).flatten
      rw [crc32Update_append]
      simp only [List.flatten_cons]
    · rw [hsz2]
      show st.inputSize + c0.length + rest.flatten.length =
        st.inputSize + (c0 :: rest).flatten.length
      simp only [List.flatten_cons, List.length_append]
      omega

theorem deflateFinish_ne_nil (fed : List Nat) : deflateFinish fed ≠ [] := by
  unfold deflateFinish
  intro h
  rw [List.append_eq_nil] at h
  have := h.1
  rw [lebEncode] at this
  split at this
  · simp at this
  · simp at this

/-- The stream state produced by `__init__` for mode `"wb"`. -/
def wbState (cs level : Int) (fname : List Nat) : BinFile :=
  { modeOp := 'w', modePlus := false, writingMode := true,
    chunkSize := cs.toNat, compresslevel := level, headerMtime := none,
    headerFilename := fname, closefd := true, file := none,
    engine := .engNone, buffer := [], bufferOffset := 0,
    isClosed := false, eof := false, ownsFile := false,
    crc := 0, inputSize := 0, position := 0, mtime := none,
    headerProbe := [] }

/-- The stream state produced by `__init__` for mode `"rb"` (level 6 default). -/
def rbState (cs : Int) : BinFile :=
  { modeOp := 'r', modePlus := false, writingMode := false,
    chunkSize := cs.toNat, compresslevel := 6, headerMtime := none,
    headerFilename := [], closefd := true, file := none,
    engine := .engNone, buffer := [], bufferOffset := 0,
    isClosed := false, eof := false, ownsFile := false,
    crc := 0, inputSize := 0, position := 0, mtime := none,
    headerProbe := [] }

theorem binInit_wb (cs level : Int) (fname : List Nat) (hcs : 0 < cs)
    (hlev : -1 ≤ level ∧ level ≤ 9) :
    binInit (some [100]) false ['w', 'b'] cs level none fname none
      = .ok (wbState cs level fname) := by
  have hv : validateChunkSize cs = .ok () := by
    unfold validateChunkSize
    rw [if_neg (show ¬(cs ≤ 0) from by omega)]
  have hvl : validateCompresslevel level = .ok () := by
    unfold validateCompresslevel
    rw [if_neg (not_not_intro hlev)]
  unfold binInit
  simp only [hv, hvl]
  rfl

theorem binInit_rb (cs : Int) (hcs : 0 < cs) :
    binInit (some [100]) false ['r', 'b'] cs 6 none [] none = .ok (rbState cs) := by
  have hv : validateChunkSize cs = .ok () := by
    unfold validateChunkSize
    rw [if_neg (show ¬(cs ≤ 0) from by omega)]
  unfold binInit
  simp only [hv]
  rfl

/-- The state after `__aenter__` on a fresh `"wb"` stream, header written. -/
def wbOpenState (cs level : Int) (fname : List Nat) (now : Nat) : BinFile :=
  { wbState cs level fname with
    file := some { data := buildGzipHeader fname none now level, pos := 0,
                   closed := false, failWrite := false, failClose := false }
    ownsFile := true
    engine := .comp { level := level, fed := [] } }

/-- The state after `__aenter__` on a fresh `"rb"` stream over `content`. -/
def rbOpenState (cs : Int) (content : List Nat) : BinFile :=
  { rbState cs with
    file := some { data := content, pos := 0, closed := false,
                   failWrite := false, failClose := false }
    ownsFile := true
    engine := .decomp Decomp.fresh }

theorem binAenter_wb (cs level : Int) (fname : List Nat) (now : Nat) :
    binAenter (wbState cs level fname) [] now = .ok (wbOpenState cs level fname now) := rfl

theorem binAenter_rb (cs : Int) (content : List Nat) :
    binAenter (rbState cs) content 0 = .ok (rbOpenState cs content) := rfl

theorem binClose_write_ok (st : BinFile) (c : Comp) (f : AFile)
    (hcl : st.isClosed = false) (hf : st.file = some f)
    (hw : st.writingMode = true) (he : st.engine = .comp c)
    (hfc : f.closed = false) (hfw : f.failWrite = false) (hffc : f.failClose = false)
    (hown : st.ownsFile = true) :
    binClose st =
      ({ st with
           isClosed := true
           file := some { data := f.data ++ compFinish c ++ buildGzipTrailer st.crc st.inputSize, pos := f.pos, closed := true, failWrite := f.failWrite, failClose := f.failClose } },
        .ok ()) := by
  have hwr1 : AFile.write f (compFinish c) = .ok { f with data := f.data ++ compFinish c } := by
    unfold AFile.write
    rw [if_neg (show ¬(f.closed = true ∨ f.failWrite = true) from by rw [hfc, hfw]; simp)]
  have hif : (if compFinish c ≠ [] then AFile.write f (compFinish c) else .ok f)
      = .ok { f with data := f.data ++ compFinish c } := by
    rw [if_pos (show compFinish c ≠ [] from deflateFinish_ne_nil c.fed), hwr1]
  have hwr2 : AFile.write { f with data := f.data ++ compFinish c }
        (buildGzipTrailer st.crc st.inputSize)
      = .ok { f with data := f.data ++ compFinish c ++ buildGzipTrailer st.crc st.inputSize } := by
    unfold AFile.write
    rw [if_neg (show ¬(f.closed = true ∨ f.failWrite = true) from by rw [hfc, hfw]; simp)]
  have hc3 : AFile.close { f with data := f.data ++ compFinish c ++ buildGzipTrailer st.crc st.inputSize }
      = .ok { f with data := f.data ++ compFinish c ++ buildGzipTrailer st.crc st.inputSize, closed := true } := by
    unfold AFile.close
    rw [if_neg (show ¬(f.failClose = true) from by rw [hffc]; simp)]
  unfold binClose
  rw [if_neg (show ¬(st.isClosed = true) from by rw [hcl]; simp)]
  simp only [hf, hw, he, hif, hwr2, hc3, hown, eq_self_iff_true, if_true, true_or]

/-- The end-to-end compression scenario: open a fresh target in `"wb"` mode,
enter, write each chunk in turn, close, and observe the produced file bytes. -/
def compressScenario (chunks : List (List Nat)) (level cs : Int)
    (fname : List Nat) (now : Nat) : Except Err (List Nat) :=
  match binInit (some [100]) false ['w', 'b'] cs level none fname none with
  | .error er => .error er
  | .ok st0 =>
    match binAenter st0 [] now with
    | .error er => .error er
    | .ok st1 =>
      match writeAll st1 chunks with
      | .error er => .error er
      | .ok st2 =>
        match binClose st2 with
        | (_, .error er) => .error er
        | (st3, .ok _) =>
          match st3.file with
          | some f => .ok f.data
          | none => .error .ioError

/-- The end-to-end decompression scenario: open `content` in `"rb"` mode,
enter, `read(-1)`. -/
def decompressScenario (content : List Nat) (cs : Int) : Except Err (List Nat) :=
  match binInit (some [100]) false ['r', 'b'] cs 6 none [] none with
  | .error er => .error er
  | .ok st0 =>
    match binAenter st0 content 0 with
    | .error er => .error er
    | .ok st1 =>
      match binRead st1 (-1) with
      | .error er => .error er
      | .ok (data, _) => .ok data

theorem compressScenario_eq (chunks : List (List Nat)) (level cs : Int)
    (fname : List Nat) (now : Nat) (hcs : 0 < cs) (hlev : -1 ≤ level ∧ level ≤ 9) :
    compressScenario chunks level cs fname now
      = .ok (memberBytes fname none now level chunks.flatten) := by
  unfold compressScenario
  simp only [binInit_wb cs level fname hcs hlev, binAenter_wb]
  obtain ⟨st2, hst2, he2, hcrc2, hsz2, hfile2, hcl2, hw2, hm2, ho2, hfd2⟩ :=
    writeAll_sem chunks (wbOpenState cs level fname now) { level := level, fed := [] }
      rfl rfl rfl (by simp [wbOpenState])
  simp only [hst2]
  have hclose := binClose_write_ok st2 { level := level, fed := [] ++ chunks.flatten }
    { data := buildGzipHeader fname none now level, pos := 0,
      closed := false, failWrite := false, failClose := false }
    (show st2.isClosed = false from hcl2) (show st2.file = some _ from hfile2)
    (show st2.writingMode = true from hw2) he2 rfl rfl rfl
    (show st2.ownsFile = true from ho2)
  simp only [hclose]
  simp only [hcrc2, hsz2]
  simp [wbOpenState, wbState, memberBytes, compFinish]

theorem decompressScenario_sem (content : List Nat) (cs : Int) (hcs : 0 < cs) :
    decompressScenario content cs = gunzipAll content := by
  unfold decompressScenario
  simp only [binInit_rb cs hcs, binAenter_rb]
  have hr := binRead_all_sem (rbOpenState cs content)
    { data := content, pos := 0, closed := false, failWrite := false, failClose := false }
    Decomp.fresh rfl rfl rfl rfl engineInv_fresh rfl
    (show 1 ≤ (cs.toNat : Nat) from by omega) (Nat.zero_le _) rfl rfl rfl
  have hps : pendingSem Decomp.fresh (content.drop 0) = gunzipAll content := by
    unfold pendingSem
    rw [if_neg (show ¬(Decomp.fresh.done = true) from by simp [Decomp.fresh])]
    simp [Decomp.fresh]
  cases hb : binRead (rbOpenState cs content) (-1) with
  | error er =>
    rw [hb] at hr
    simp only at hr
    rw [hps] at hr
    rw [hr]
  | ok pr =>
    obtain ⟨data, st4⟩ := pr
    rw [hb] at hr
    simp only at hr
    rw [hps] at hr
    rw [hr]

theorem memberBytes_eq_cons (fname : List Nat) (mtime : Option Nat) (now : Nat)
    (level : Int) (payload : List Nat) :
    memberBytes fname mtime now level payload
      = 31 :: (memberBytes fname mtime now level payload).tail := by
  simp [memberBytes, buildGzipHeader]

theorem gunzipAll_memberBytes (fname : List Nat) (mtime : Option Nat) (now : Nat)
    (level : Int) (payload : List Nat) (hf : 0 ∉ fname) :
    gunzipAll (memberBytes fname mtime now level payload) = .ok payload := by
  have hm : parseMember (memberBytes fname mtime now level payload)
      = .complete payload [] := by
    have h := parseMember_memberBytes fname mtime now level payload [] hf
    rwa [List.append_nil] at h
  rw [gunzipAll_step _ _ _ hm]
  rw [if_pos (show stripZeros ([] : List Nat) = [] from rfl)]

theorem stripZeros_zeros (j : Nat) : stripZeros (zeros j) = [] := by
  have h := stripZeros_zeros_append j []
  rwa [List.append_nil] at h

theorem gunzipAll_two_members (f1 f2 : List Nat) (m1 m2 : Option Nat)
    (n1 n2 : Nat) (l1 l2 : Int) (p1 p2 : List Nat) (k j : Nat)
    (hf1 : 0 ∉ f1) (hf2 : 0 ∉ f2) :
    gunzipAll (memberBytes f1 m1 n1 l1 p1 ++
        (zeros k ++ (memberBytes f2 m2 n2 l2 p2 ++ zeros j)))
      = .ok (p1 ++ p2) := by
  have hm1 := parseMember_memberBytes f1 m1 n1 l1 p1
    (zeros k ++ (memberBytes f2 m2 n2 l2 p2 ++ zeros j)) hf1
  rw [gunzipAll_step _ _ _ hm1]
  have hstrip : stripZeros (zeros k ++ (memberBytes f2 m2 n2 l2 p2 ++ zeros j))
      = memberBytes f2 m2 n2 l2 p2 ++ zeros j := by
    rw [stripZeros_zeros_append]
    rw [memberBytes_eq_cons f2 m2 n2 l2 p2, List.cons_append]
    exact stripZeros_cons_of_ne 31 _ (by norm_num)
  rw [hstrip]
  have hne : memberBytes f2 m2 n2 l2 p2 ++ zeros j ≠ [] := by
    rw [memberBytes_eq_cons f2 m2 n2 l2 p2, List.cons_append]
    simp
  rw [if_neg hne]
  have h2 : gunzipAll (memberBytes f2 m2 n2 l2 p2 ++ zeros j) = .ok p2 := by
    have hm2 := parseMember_memberBytes f2 m2 n2 l2 p2 (zeros j) hf2
    rw [gunzipAll_step _ _ _ hm2]
    rw [if_pos (stripZeros_zeros j)]
  rw [h2]

/-- C1: for every byte string (split arbitrarily into successive `write` calls)
and every compression level in 0-9, writing it to a fresh binary stream opened
in write mode, closing, then reopening the produced bytes in read mode and
calling `read(-1)` returns exactly the original bytes. -/
theorem c1_write_read_roundtrip (chunks : List (List Nat)) (level cs1 cs2 : Int)
    (fname : List Nat) (now : Nat) (hcs1 : 0 < cs1) (hcs2 : 0 < cs2)
    (hlev : 0 ≤ level ∧ level ≤ 9) (hf : 0 ∉ fname) :
    ∃ bytes, compressScenario chunks level cs1 fname now = .ok bytes ∧
      decompressScenario bytes cs2 = .ok chunks.flatten := by
  refine ⟨memberBytes fname none now level chunks.flatten,
    compressScenario_eq chunks level cs1 fname now hcs1 ⟨by omega, hlev.2⟩, ?_⟩
  rw [decompressScenario_sem _ cs2 hcs2]
  exact gunzipAll_memberBytes fname none now level chunks.flatten hf

theorem c1_write_read_roundtrip_witness :
    (0 < (4 : Int)) ∧ (0 ∉ ([104] : List Nat)) ∧
    ∃ bytes, compressScenario [[104, 105], [33]] 6 4 [104] 123 = .ok bytes ∧
      decompressScenario bytes 8 = .ok [104, 105, 33] :=
  ⟨by norm_num, by decide, by
    have h := c1_write_read_roundtrip [[104, 105], [33]] 6 4 8 [104] 123
      (by norm_num) (by norm_num) (by norm_num) (by decide)
    simpa using h⟩

/-- C2: two gzip members concatenated, optionally with NUL padding between or
after them, read through a read-mode binary stream, yield one continuous
logical stream equal to the concatenation of the members' payloads. -/
theorem c2_multi_member_stream (p1 p2 f1 f2 : List Nat) (m1 m2 : Option Nat)
    (n1 n2 : Nat) (l1 l2 : Int) (k j : Nat) (cs : Int)
    (hcs : 0 < cs) (hf1 : 0 ∉ f1) (hf2 : 0 ∉ f2) :
    decompressScenario (memberBytes f1 m1 n1 l1 p1 ++
        (zeros k ++ (memberBytes f2 m2 n2 l2 p2 ++ zeros j))) cs
      = .ok (p1 ++ p2) := by
  rw [decompressScenario_sem _ cs hcs]
  exact gunzipAll_two_members f1 f2 m1 m2 n1 n2 l1 l2 p1 p2 k j hf1 hf2

theorem c2_multi_member_stream_witness :
    (0 < (4 : Int)) ∧ (0 ∉ ([] : List Nat)) ∧
    decompressScenario (memberBytes [] none 0 6 [1] ++
        (zeros 3 ++ (memberBytes [] none 0 9 [2, 3] ++ zeros 2))) 4
      = .ok ([1] ++ [2, 3]) :=
  ⟨by norm_num, by decide,
    c2_multi_member_stream [1] [2, 3] [] [] none none 0 0 6 9 3 2 4
      (by norm_num) (by decide) (by decide)⟩

/-- `b"hello world"`. -/
def helloWorldBytes : List Nat := [104, 101, 108, 108, 111, 32, 119, 111, 114, 108, 100]

/-- C8: writing `b"hello world"` at level 6 with no mtime/filename override to
a fresh `"wb"` target and closing produces bytes starting with magic `1F 8B`,
whose 3rd byte is 8 (deflate), whose trailing 8 bytes are the little-endian
CRC-32 of the payload followed by the little-endian size 11 (and those fields
decode back to exactly those values); reopening in read mode, `read(-1)`
returns exactly `b"hello world"`. -/
theorem c8_hello_world_scenario (now : Nat) :
    ∃ bytes,
      compressScenario [helloWorldBytes] 6 65536 [100] now = .ok bytes ∧
      bytes.take 2 = [0x1f, 0x8b] ∧
      bytes.getD 2 0 = 8 ∧
      bytes.drop (bytes.length - 8)
        = le32 (crc32Update 0 helloWorldBytes) ++ le32 helloWorldBytes.length ∧
      readLE32 (le32 (crc32Update 0 helloWorldBytes)) = crc32Update 0 helloWorldBytes ∧
      readLE32 (le32 helloWorldBytes.length) = 11 ∧
      decompressScenario bytes 65536 = .ok helloWorldBytes := by
  have hleb : lebEncode 11 = [11] := by
    rw [lebEncode]
    norm_num
  refine ⟨memberBytes [100] none now 6 helloWorldBytes, ?_, ?_, ?_, ?_, ?_, ?_, ?_⟩
  · have h := compressScenario_eq [helloWorldBytes] 6 65536 [100] now
      (by norm_num) (by norm_num)
    simpa using h
  · simp [memberBytes, buildGzipHeader]
  · simp [memberBytes, buildGzipHeader, GZIP_METHOD_DEFLATE]
  · simp [memberBytes, buildGzipHeader, buildGzipTrailer, deflateFinish, le32,
      helloWorldBytes, hleb]
  · exact readLE32_le32 _ (crc32Update_lt 0 helloWorldBytes (by norm_num))
  · norm_num [readLE32, le32, helloWorldBytes]
  · rw [decompressScenario_sem _ 65536 (by norm_num)]
    exact gunzipAll_memberBytes [100] none now 6 helloWorldBytes (by decide)

theorem c8_hello_world_scenario_witness :
    ∃ bytes,
      compressScenario [helloWorldBytes] 6 65536 [100] 0 = .ok bytes ∧
      bytes.take 2 = [0x1f, 0x8b] ∧
      bytes.getD 2 0 = 8 ∧
      bytes.drop (bytes.length - 8)
        = le32 (crc32Update 0 helloWorldBytes) ++ le32 helloWorldBytes.length ∧
      readLE32 (le32 (crc32Update 0 helloWorldBytes)) = crc32Update 0 helloWorldBytes ∧
      readLE32 (le32 helloWorldBytes.length) = 11 ∧
      decompressScenario bytes 65536 = .ok helloWorldBytes :=
  c8_hello_world_scenario 0

theorem binInit_wb_bad_level (level : Int) (hlev : ¬(-1 ≤ level ∧ level ≤ 9)) :
    binInit (some [100]) false ['w', 'b'] 65536 level none [] none
      = .error .invalidValue := by
  have hv : validateChunkSize 65536 = .ok () := by
    unfold validateChunkSize
    rw [if_neg (by norm_num)]
  have hvl : validateCompresslevel level = .error .invalidValue := by
    unfold validateCompresslevel
    rw [if_pos hlev]
  unfold binInit
  simp only [hv, hvl]
  rfl

/-- C4 counterexample: `-1` lies outside `[0, 9]`, yet constructing a
write-mode stream with compression level `-1` succeeds. -/
theorem c4_level_validation_counterexample :
    ¬(0 ≤ (-1 : Int)) ∧
    ∃ st, binInit (some [100]) false ['w', 'b'] 65536 (-1) none [] none = .ok st :=
  ⟨by norm_num,
    ⟨wbState 65536 (-1) [], binInit_wb 65536 (-1) [] (by norm_num) (by norm_num)⟩⟩

/-- C4 (amended): write-mode construction validates the compression level
against the inclusive range `[-1, 9]` (zlib's `-1` default included), not
`[0, 9]`: construction succeeds exactly for levels in `[-1, 9]`, and fails
with the configuration error (`ValueError`) outside it. -/
theorem c4_level_validation (level : Int) :
    ((∃ st, binInit (some [100]) false ['w', 'b'] 65536 level none [] none = .ok st)
        ↔ (-1 ≤ level ∧ level ≤ 9)) ∧
      (¬(-1 ≤ level ∧ level ≤ 9) →
        binInit (some [100]) false ['w', 'b'] 65536 level none [] none
          = .error .invalidValue) := by
  refine ⟨⟨?_, ?_⟩, binInit_wb_bad_level level⟩
  · rintro ⟨st, hst⟩
    by_contra hlev
    rw [binInit_wb_bad_level level hlev] at hst
    exact Except.noConfusion hst
  · intro hlev
    exact ⟨wbState 65536 level [], binInit_wb 65536 level [] (by norm_num) hlev⟩

theorem c4_level_validation_witness :
    binInit (some [100]) false ['w', 'b'] 65536 10 none [] none
      = .error .invalidValue :=
  (c4_level_validation 10).2 (by norm_num)

theorem binClose_of_closed (st : BinFile) (h : st.isClosed = true) :
    binClose st = (st, .ok ()) := by
  unfold binClose
  rw [if_pos h]

theorem binClose_fst_closed (st : BinFile) : (binClose st).1.isClosed = true := by
  unfold binClose
  by_cases h : st.isClosed = true
  · rw [if_pos h]
    exact h
  · rw [if_neg h]
    dsimp only
    repeat' split
    all_goals rfl

theorem binClose_write_fail (st : BinFile) (c : Comp) (f : AFile)
    (hcl : st.isClosed = false) (hf : st.file = some f) (hw : st.writingMode = true)
    (he : st.engine = .comp c) (hfw : f.failWrite = true) :
    binClose st = ({ st with isClosed := true }, .error .ioError) := by
  have hwr1 : AFile.write f (compFinish c) = .error .ioError := by
    unfold AFile.write
    rw [if_pos (Or.inr hfw)]
  have hif : (if compFinish c ≠ [] then AFile.write f (compFinish c) else .ok f)
      = .error .ioError := by
    rw [if_pos (show compFinish c ≠ [] from deflateFinish_ne_nil c.fed), hwr1]
  unfold binClose
  rw [if_neg (show ¬(st.isClosed = true) from by rw [hcl]; simp)]
  simp only [hf, hw, he, hif, eq_self_iff_true, if_true]

/-- C3 counterexample: a stream on which `close()` has completed (the flag is
set), on which `tell()` nevertheless succeeds rather than failing. -/
theorem c3_tell_after_close_counterexample :
    ((binClose (wbOpenState 4 6 [] 0)).1.isClosed = true) ∧
    ∀ er : Err, binTell (binClose (wbOpenState 4 6 [] 0)).1 ≠ .error er := by
  refine ⟨binClose_fst_closed _, fun er h => Except.noConfusion h⟩

theorem tryParse_eq_of_magic (data : List Nat) (hlen : 10 ≤ data.length)
    (hmag : data.take 2 = [0x1f, 0x8b] ∧ data.getD 2 0 = GZIP_METHOD_DEFLATE) :
    tryParseGzipHeaderMtime data
      = match hdrExtra (data.getD 3 0) data with
        | none => (none, false)
        | some p1 =>
          match hdrZeroField (data.getD 3 0) GZIP_FLAG_FNAME data p1 with
          | none => (none, false)
          | some p2 =>
            match hdrZeroField (data.getD 3 0) GZIP_FLAG_FCOMMENT data p2 with
            | none => (none, false)
            | some p3 =>
              match hdrCrc16 (data.getD 3 0) data p3 with
              | none => (none, false)
              | some _ => (some (readLE32 ((data.drop 4).take 4)), true) := by
  have hx : (if data.getD 3 0 &&& GZIP_FLAG_FEXTRA ≠ 0 then
        (if data.length < 10 + 2 then none
         else
           let xlen := data.getD 10 0 % 256 + 256 * (data.getD 11 0 % 256)
           let pos := 12 + xlen
           if data.length < pos then none else some pos)
      else some 10) = hdrExtra (data.getD 3 0) data := by
    unfold hdrExtra
    by_cases hf : data.getD 3 0 &&& GZIP_FLAG_FEXTRA = 0
    · rw [if_neg (not_not_intro hf), if_pos hf]
    · rw [if_pos hf, if_neg hf]
  have hname : ∀ p : Nat, (if data.getD 3 0 &&& GZIP_FLAG_FNAME ≠ 0 then
        match findZeroFrom data p with
        | none => none
        | some t => some (t + 1)
      else some p) = hdrZeroField (data.getD 3 0) GZIP_FLAG_FNAME data p := by
    intro p
    unfold hdrZeroField
    by_cases hf : data.getD 3 0 &&& GZIP_FLAG_FNAME = 0
    · rw [if_neg (not_not_intro hf), if_pos hf]
    · rw [if_pos hf, if_neg hf]
  have hcomment : ∀ p : Nat, (if data.getD 3 0 &&& GZIP_FLAG_FCOMMENT ≠ 0 then
        match findZeroFrom data p with
        | none => none
        | some t => some (t + 1)
      else some p) = hdrZeroField (data.getD 3 0) GZIP_FLAG_FCOMMENT data p := by
    intro p
    unfold hdrZeroField
    by_cases hf : data.getD 3 0 &&& GZIP_FLAG_FCOMMENT = 0
    · rw [if_neg (not_not_intro hf), if_pos hf]
    · rw [if_pos hf, if_neg hf]
  have hcrc : ∀ (p : Nat) (mt : Nat),
      (if data.getD 3 0 &&& GZIP_FLAG_FHCRC ≠ 0 ∧ data.length < p + 2
        then ((none : Option Nat), false) else (some mt, true))
      = match hdrCrc16 (data.getD 3 0) data p with
        | none => ((none : Option Nat), false)
        | some _ => (some mt, true) := by
    intro p mt
    unfold hdrCrc16
    by_cases hf : data.getD 3 0 &&& GZIP_FLAG_FHCRC = 0
    · rw [if_pos hf, if_neg (fun hcon => hcon.1 hf)]
    · rw [if_neg hf]
      by_cases hl : data.length < p + 2
      · rw [if_pos hl, if_pos ⟨hf, hl⟩]
      · rw [if_neg hl, if_neg (fun hcon => hl hcon.2)]
  unfold tryParseGzipHeaderMtime
  rw [if_neg (show ¬(data.length < 10) from by omega), if_neg (not_not_intro hmag)]
  simp only [hx]
  cases hE : hdrExtra (data.getD 3 0) data with
  | none => rfl
  | some p1 =>
    simp only [hname p1]
    cases hN : hdrZeroField (data.getD 3 0) GZIP_FLAG_FNAME data p1 with
    | none => rfl
    | some p2 =>
      simp only [hcomment p2]
      cases hC : hdrZeroField (data.getD 3 0) GZIP_FLAG_FCOMMENT data p2 with
      | none => rfl
      | some p3 =>
        simp only [hcrc p3 (readLE32 ((data.drop 4).take 4))]

/-- C7 counterexample: the one-byte input `[0]` has a first byte that cannot
start a gzip magic sequence, yet the probe reports `(mtime := none,
complete := false)` — it does not report `complete = true` for bad magic when
fewer than 10 bytes have arrived. -/
theorem c7_short_bad_magic_counterexample :
    ([0] : List Nat).getD 0 256 ≠ 0x1f ∧
    tryParseGzipHeaderMtime [0] = (none, false) := by
  refine ⟨by decide, ?_⟩
  unfold tryParseGzipHeaderMtime
  rw [if_pos (by norm_num)]

/-- C7 (amended): the header probe returns `complete = false` for every input
shorter than the 10-byte fixed header — even when the bytes present already
rule out gzip magic; once at least 10 bytes have arrived it returns
`(none, complete = true)` exactly when magic/method mismatch, and for
magic-valid inputs it reports `complete = true` exactly when the full header
(through extra field, NUL-terminated name and comment, and header CRC) lies
within the arrived bytes. -/
theorem c7_header_probe (data : List Nat) :
    (data.length < 10 → tryParseGzipHeaderMtime data = (none, false)) ∧
    (10 ≤ data.length →
      ¬(data.take 2 = [0x1f, 0x8b] ∧ data.getD 2 0 = GZIP_METHOD_DEFLATE) →
      tryParseGzipHeaderMtime data = (none, true)) ∧
    (10 ≤ data.length →
      data.take 2 = [0x1f, 0x8b] ∧ data.getD 2 0 = GZIP_METHOD_DEFLATE →
      ((tryParseGzipHeaderMtime data).2 = true ↔
        ∃ n, parseHeader data = .complete n)) := by
  refine ⟨?_, ?_, ?_⟩
  · intro h
    unfold tryParseGzipHeaderMtime
    rw [if_pos h]
  · intro hl hm
    unfold tryParseGzipHeaderMtime
    rw [if_neg (show ¬(data.length < 10) from by omega), if_pos hm]
  · intro hl hm
    have hsplit : data = 0x1f :: 0x8b :: data.drop 2 := by
      conv_lhs => rw [← List.take_append_drop 2 data]
      rw [hm.1]
      rfl
    have h0 : data.getD 0 0 = 0x1f := by
      rw [hsplit]
      rfl
    have h1 : data.getD 1 0 = 0x8b := by
      rw [hsplit]
      rfl
    have hph : parseHeader data
        = match hdrExtra (data.getD 3 0) data with
          | none => HRes.incomplete
          | some p1 =>
            match hdrZeroField (data.getD 3 0) GZIP_FLAG_FNAME data p1 with
            | none => HRes.incomplete
            | some p2 =>
              match hdrZeroField (data.getD 3 0) GZIP_FLAG_FCOMMENT data p2 with
              | none => HRes.incomplete
              | some p3 =>
                match hdrCrc16 (data.getD 3 0) data p3 with
                | none => HRes.incomplete
                | some p4 => HRes.complete p4 := by
      unfold parseHeader
      rw [if_neg (fun hcon => hcon.2 h0), if_neg (fun hcon => hcon.2 h1),
        if_neg (fun hcon => hcon.2 hm.2), if_neg (show ¬(data.length < 10) from by omega)]
    rw [tryParse_eq_of_magic data hl hm, hph]
    cases hdrExtra (data.getD 3 0) data with
    | none => simp
    | some p1 =>
      dsimp only
      cases hdrZeroField (data.getD 3 0) GZIP_FLAG_FNAME data p1 with
      | none => simp
      | some p2 =>
        dsimp only
        cases hdrZeroField (data.getD 3 0) GZIP_FLAG_FCOMMENT data p2 with
        | none => simp
        | some p3 =>
          dsimp only
          cases hdrCrc16 (data.getD 3 0) data p3 with
          | none => simp
          | some p4 => simp

theorem c7_header_probe_witness :
    tryParseGzipHeaderMtime [0] = (none, false) ∧
    tryParseGzipHeaderMtime [0, 1, 2, 3, 4, 5, 6, 7, 8, 9] = (none, true) ∧
    ((tryParseGzipHeaderMtime [0x1f, 0x8b, 8, 0, 0, 0, 0, 0, 0, 255]).2 = true ↔
      ∃ n, parseHeader [0x1f, 0x8b, 8, 0, 0, 0, 0, 0, 0, 255] = .complete n) :=
  ⟨(c7_header_probe [0]).1 (by norm_num),
   (c7_header_probe [0, 1, 2, 3, 4, 5, 6, 7, 8, 9]).2.1 (by norm_num) (by decide),
   (c7_header_probe [0x1f, 0x8b, 8, 0, 0, 0, 0, 0, 0, 255]).2.2 (by norm_num) (by decide)⟩

/-! ## `AsyncGzipTextFile`: newline handling

`newline` takes one of the five legal values (`None`, `""`, `"\n"`, `"\r"`,
`"\r\n"`); `os.linesep` is carried as an explicit state parameter. -/

inductive NewlineMode where
  | univ
  | noTrans
  | lf
  | cr
  | crlf
deriving DecidableEq, Repr

/-- `str.replace("\n", sep)` (left-to-right, single-character pattern). -/
def replaceLF (sep : List Char) : List Char → List Char
  | [] => []
  | c :: t => if c = '\n' then sep ++ replaceLF sep t else c :: replaceLF sep t

/-- `str.replace("\r\n", "\n")` (left-to-right, non-overlapping). -/
def replaceCRLF : List Char → List Char
  | [] => []
  | ['\r'] => ['\r']
  | '\r' :: '\n' :: t => '\n' :: replaceCRLF t
  | c :: t => c :: replaceCRLF t

/-- `str.replace("\r", "\n")`. -/
def replaceCR (text : List Char) : List Char :=
  text.map (fun c => if c = '\r' then '\n' else c)

/-- `_apply_newline_decoding(text)` given the current `_trailing_cr` flag;
returns the decoded text and the new flag. -/
def applyNewlineDecoding (nl : NewlineMode) (trailingCr : Bool) (text : List Char) :
    List Char × Bool :=
  if text = [] then (text, trailingCr)
  else
    match nl with
    | .univ =>
      let text1 := if trailingCr = true ∧ text.getD 0 ' ' = '\n' then text.tail else text
      let newTc : Bool := decide (text1 ≠ [] ∧ text1.getLast? = some '\r')
      (replaceCR (replaceCRLF text1), newTc)
    | _ => (text, trailingCr)

/-- `str.find(c)` (index of first occurrence). -/
def strFindChar (text : List Char) (c : Char) : Option Nat :=
  match text with
  | [] => none
  | a :: t => if a = c then some 0 else (strFindChar t c).map (· + 1)

/-- `str.find("\r\n")`. -/
def strFindCRLF : List Char → Option Nat
  | [] => none
  | ['\r'] => none
  | '\r' :: '\n' :: _ => some 0
  | _ :: t => (strFindCRLF t).map (· + 1)

/-- `_get_line_terminator_pos(text)`; `(-1, 0)` is modelled as `none`.  `eof`
is `_at_stream_eof()`. -/
def getLineTerminatorPos (nl : NewlineMode) (eof : Bool) (text : List Char) :
    Option (Nat × Nat) :=
  if nl = .univ ∨ nl = .noTrans then
    let posN := strFindChar text '\n'
    let posR := strFindChar text '\r'
    let candidate0 : Option (Nat × Nat) :=
      match posN with
      | some p => some (p, 1)
      | none => none
    match posR with
    | none => candidate0
    | some pr =>
      let crLength := if pr + 1 < text.length ∧ text.getD (pr + 1) ' ' = '\n' then 2 else 1
      let crIsTrailing := pr + 1 = text.length
      let shouldWait :=
        nl = .noTrans ∧ crLength = 1 ∧ crIsTrailing ∧ eof = false
      if shouldWait then candidate0
      else
        match candidate0 with
        | none => some (pr, crLength)
        | some (pn, l) => if pr < pn then some (pr, crLength) else some (pn, l)
  else if nl = .lf then (strFindChar text '\n').map (·, 1)
  else if nl = .cr then (strFindChar text '\r').map (·, 1)
  else if nl = .crlf then (strFindCRLF text).map (·, 2)
  else (strFindChar text '\n').map (·, 1)

theorem strFindChar_some_spec (l : List Char) (c : Char) (i : Nat) (d : Char)
    (h : strFindChar l c = some i) :
    i < l.length ∧ l.getD i d = c ∧ ∀ j, j < i → ¬(l.getD j d = c) := by
  induction l generalizing i with
  | nil => exact Option.noConfusion h
  | cons a t ih =>
    rw [strFindChar] at h
    by_cases ha : a = c
    · rw [if_pos ha] at h
      simp only [Option.some.injEq] at h
      subst h
      exact ⟨Nat.succ_pos _, ha, fun j hj => absurd hj (Nat.not_lt_zero j)⟩
    · rw [if_neg ha] at h
      simp only [Option.map_eq_some'] at h
      obtain ⟨i0, hi0, hi⟩ := h
      obtain ⟨h1, h2, h3⟩ := ih i0 hi0
      subst hi
      refine ⟨by simpa using Nat.succ_lt_succ h1, by simpa using h2, ?_⟩
      intro j hj
      cases j with
      | zero => simpa using ha
      | succ j0 =>
        have := h3 j0 (Nat.lt_of_succ_lt_succ hj)
        simpa using this

theorem strFindChar_none_spec (l : List Char) (c : Char) (d : Char)
    (h : strFindChar l c = none) : ∀ j, j < l.length → ¬(l.getD j d = c) := by
  induction l with
  | nil => intro j hj; simp at hj
  | cons a t ih =>
    rw [strFindChar] at h
    by_cases ha : a = c
    · rw [if_pos ha] at h
      exact Option.noConfusion h
    · rw [if_neg ha] at h
      simp only [Option.map_eq_none'] at h
      intro j hj
      cases j with
      | zero => simpa using ha
      | succ j0 => simpa using ih h j0 (by simpa using hj)

theorem replaceCR_no_cr (text : List Char) : '\r' ∉ replaceCR text := by
  intro hmem
  unfold replaceCR at hmem
  rw [List.mem_map] at hmem
  obtain ⟨c, _, hc⟩ := hmem
  by_cases h : c = '\r'
  · rw [if_pos h] at hc
    exact absurd hc (by decide)
  · rw [if_neg h] at hc
    exact h hc

theorem getLineTerminatorPos_earliest (nl : NewlineMode)
    (hnl : nl = .univ ∨ nl = .noTrans) (eof : Bool) (text : List Char)
    (p l : Nat) (h : getLineTerminatorPos nl eof text = some (p, l)) :
    p < text.length ∧ (text.getD p ' ' = '\n' ∨ text.getD p ' ' = '\r') ∧
      ∀ i, i < p → ¬(text.getD i ' ' = '\n' ∨ text.getD i ' ' = '\r') := by
  unfold getLineTerminatorPos at h
  rw [if_pos hnl] at h
  cases hN : strFindChar text '\n' with
  | none =>
    cases hR : strFindChar text '\r' with
    | none =>
      simp only [hN, hR] at h
      exact Option.noConfusion h
    | some pr =>
      have hRs := strFindChar_some_spec text '\r' pr ' ' hR
      have hNs := strFindChar_none_spec text '\n' ' ' hN
      simp only [hN, hR] at h
      by_cases hcl : pr + 1 < text.length ∧ text.getD (pr + 1) ' ' = '\n'
      · rw [if_pos hcl] at h
        rw [if_neg (show ¬(nl = NewlineMode.noTrans ∧ (2 : Nat) = 1 ∧
            pr + 1 = text.length ∧ eof = false) from
          fun hc => absurd hc.2.1 (by norm_num))] at h
        simp only [Option.some.injEq, Prod.mk.injEq] at h
        obtain ⟨hp, _⟩ := h
        subst hp
        exact ⟨hRs.1, Or.inr hRs.2.1, fun i hi hcon => hcon.elim
          (fun hlf => hNs i (Nat.lt_trans hi hRs.1) hlf)
          (fun hcr => hRs.2.2 i hi hcr)⟩
      · rw [if_neg hcl] at h
        by_cases hsw : nl = NewlineMode.noTrans ∧ (1 : Nat) = 1 ∧
            pr + 1 = text.length ∧ eof = false
        · rw [if_pos hsw] at h
          exact Option.noConfusion h
        · rw [if_neg hsw] at h
          simp only [Option.some.injEq, Prod.mk.injEq] at h
          obtain ⟨hp, _⟩ := h
          subst hp
          exact ⟨hRs.1, Or.inr hRs.2.1, fun i hi hcon => hcon.elim
            (fun hlf => hNs i (Nat.lt_trans hi hRs.1) hlf)
            (fun hcr => hRs.2.2 i hi hcr)⟩
  | some pn =>
    have hNs := strFindChar_some_spec text '\n' pn ' ' hN
    cases hR : strFindChar text '\r' with
    | none =>
      have hRn := strFindChar_none_spec text '\r' ' ' hR
      simp only [hN, hR] at h
      simp only [Option.some.injEq, Prod.mk.injEq] at h
      obtain ⟨hp, _⟩ := h
      subst hp
      exact ⟨hNs.1, Or.inl hNs.2.1, fun i hi hcon => hcon.elim
        (hNs.2.2 i hi) (fun hcr => hRn i (Nat.lt_trans hi hNs.1) hcr)⟩
    | some pr =>
      have hRs := strFindChar_some_spec text '\r' pr ' ' hR
      have hprn : pn ≠ pr := by
        intro he
        have h1 := hNs.2.1
        rw [he, hRs.2.1] at h1
        exact absurd h1 (by decide)
      simp only [hN, hR] at h
      by_cases hcl : pr + 1 < text.length ∧ text.getD (pr + 1) ' ' = '\n'
      · rw [if_pos hcl] at h
        rw [if_neg (show ¬(nl = NewlineMode.noTrans ∧ (2 : Nat) = 1 ∧
            pr + 1 = text.length ∧ eof = false) from
          fun hc => absurd hc.2.1 (by norm_num))] at h
        by_cases hlt : pr < pn
        · rw [if_pos hlt] at h
          simp only [Option.some.injEq, Prod.mk.injEq] at h
          obtain ⟨hp, _⟩ := h
          subst hp
          exact ⟨hRs.1, Or.inr hRs.2.1, fun i hi hcon => hcon.elim
            (fun hlf => hNs.2.2 i (Nat.lt_trans hi hlt) hlf)
            (fun hcr => hRs.2.2 i hi hcr)⟩
        · rw [if_neg hlt] at h
          simp only [Option.some.injEq, Prod.mk.injEq] at h
          obtain ⟨hp, _⟩ := h
          subst hp
          have hple : pn ≤ pr := Nat.le_of_not_lt hlt
          exact ⟨hNs.1, Or.inl hNs.2.1, fun i hi hcon => hcon.elim
            (hNs.2.2 i hi)
            (fun hcr => hRs.2.2 i (Nat.lt_of_lt_of_le hi hple) hcr)⟩
      · rw [if_neg hcl] at h
        by_cases hsw : nl = NewlineMode.noTrans ∧ (1 : Nat) = 1 ∧
            pr + 1 = text.length ∧ eof = false
        · rw [if_pos hsw] at h
          simp only [Option.some.injEq, Prod.mk.injEq] at h
          obtain ⟨hp, _⟩ := h
          subst hp
          have hlen := hNs.1
          have htrail := hsw.2.2.1
          have hpn_lt : pn < pr := by omega
          exact ⟨hNs.1, Or.inl hNs.2.1, fun i hi hcon => hcon.elim
            (hNs.2.2 i hi)
            (fun hcr => hRs.2.2 i (Nat.lt_trans hi hpn_lt) hcr)⟩
        · rw [if_neg hsw] at h
          by_cases hlt : pr < pn
          · rw [if_pos hlt] at h
            simp only [Option.some.injEq, Prod.mk.injEq] at h
            obtain ⟨hp, _⟩ := h
            subst hp
            exact ⟨hRs.1, Or.inr hRs.2.1, fun i hi hcon => hcon.elim
              (fun hlf => hNs.2.2 i (Nat.lt_trans hi hlt) hlf)
              (fun hcr => hRs.2.2 i hi hcr)⟩
          · rw [if_neg hlt] at h
            simp only [Option.some.injEq, Prod.mk.injEq] at h
            obtain ⟨hp, _⟩ := h
            subst hp
            have hple : pn ≤ pr := Nat.le_of_not_lt hlt
            exact ⟨hNs.1, Or.inl hNs.2.1, fun i hi hcon => hcon.elim
              (hNs.2.2 i hi)
              (fun hcr => hRs.2.2 i (Nat.lt_of_lt_of_le hi hple) hcr)⟩

theorem getLineTerminatorPos_trailing_cr (text : List Char) (pr : Nat)
    (hN : strFindChar text '\n' = none) (hR : strFindChar text '\r' = some pr)
    (htr : pr + 1 = text.length) :
    getLineTerminatorPos .noTrans false text = none ∧
    getLineTerminatorPos .noTrans true text = some (pr, 1) := by
  have hlen1 : ¬(pr + 1 < text.length ∧ text.getD (pr + 1) ' ' = '\n') := by
    intro hcon
    omega
  constructor
  · have h1 : getLineTerminatorPos .noTrans false text
        = if pr + 1 = text.length then none else some (pr, 1) := by
      unfold getLineTerminatorPos
      rw [if_pos (Or.inr rfl)]
      simp only [hN, hR]
      rw [if_neg hlen1]
      simp
    rw [h1, if_pos htr]
  · have h1 : getLineTerminatorPos .noTrans true text = some (pr, 1) := by
      unfold getLineTerminatorPos
      rw [if_pos (Or.inr rfl)]
      simp only [hN, hR]
      rw [if_neg hlen1]
      simp
    exact h1

theorem applyNewlineDecoding_univ_no_cr (tc : Bool) (text : List Char) :
    '\r' ∉ (applyNewlineDecoding .univ tc text).1 := by
  unfold applyNewlineDecoding
  by_cases he : text = []
  · rw [if_pos he]
    subst he
    simp
  · rw [if_neg he]
    exact replaceCR_no_cr _

/-! ## Text codec

Modelled from the spec: the incremental text decoder collaborator
(`codecs.getincrementaldecoder(encoding)`); the default UTF-8 codec with
strict error handling.  Its incremental state is the pending (incomplete)
byte tail. -/

/-- UTF-8 encoding of one scalar value. -/
def utf8EncodeChar (c : Char) : List Nat :=
  let n := c.toNat
  if n < 0x80 then [n]
  else if n < 0x800 then
    [0xC0 ||| (n >>> 6), 0x80 ||| (n &&& 0x3F)]
  else if n < 0x10000 then
    [0xE0 ||| (n >>> 12), 0x80 ||| ((n >>> 6) &&& 0x3F), 0x80 ||| (n &&& 0x3F)]
  else
    [0xF0 ||| (n >>> 18), 0x80 ||| ((n >>> 12) &&& 0x3F),
     0x80 ||| ((n >>> 6) &&& 0x3F), 0x80 ||| (n &&& 0x3F)]

/-- `str.encode("utf-8")`. -/
def utf8Encode (s : List Char) : List Nat := (s.map utf8EncodeChar).flatten

/-- Total sequence length demanded by a UTF-8 lead byte. -/
def utf8Need (b : Nat) : Option Nat :=
  if b < 0x80 then some 1
  else if b < 0xC0 then none
  else if b < 0xE0 then some 2
  else if b < 0xF0 then some 3
  else if b < 0xF8 then some 4
  else none

/-- Whether `b` is a UTF-8 continuation byte. -/
def utf8Cont (b : Nat) : Bool := decide (0x80 ≤ b ∧ b < 0xC0)

/-- Scalar value of a validated sequence. -/
def utf8Scalar : List Nat → Nat
  | [a] => a
  | [a, b] => (a &&& 0x1F) <<< 6 ||| (b &&& 0x3F)
  | [a, b, c] => (a &&& 0x0F) <<< 12 ||| ((b &&& 0x3F) <<< 6) ||| (c &&& 0x3F)
  | [a, b, c, d] =>
    (a &&& 0x07) <<< 18 ||| ((b &&& 0x3F) <<< 12) ||| ((c &&& 0x3F) <<< 6) ||| (d &&& 0x3F)
  | _ => 0

/-- One incremental decode pass: consume all complete sequences, keep the
incomplete tail pending.  Invalid sequences are a strict decode error. -/
def utf8DecodeF : Nat → List Nat → Except Err (List Char × List Nat)
  | 0, _ => .error .ioError
  | fuel + 1, bs =>
    match bs with
    | [] => .ok ([], [])
    | b :: rest =>
      match utf8Need b with
      | none => .error .invalidValue
      | some n =>
        if (b :: rest).length < n then .ok ([], b :: rest)
        else
          let seq := (b :: rest).take n
          if ¬(seq.drop 1).all utf8Cont then .error .invalidValue
          else
            let sc := utf8Scalar seq
            if sc < 0xD800 ∨ (0xE000 ≤ sc ∧ sc < 0x110000) then
              match utf8DecodeF fuel ((b :: rest).drop n) with
              | .error er => .error er
              | .ok (cs, pend) => .ok (Char.ofNat sc :: cs, pend)
            else .error .invalidValue

/-- `decoder.decode(chunk, final=False)` over the pending bytes. -/
def utf8DecodeInc (bs : List Nat) : Except Err (List Char × List Nat) :=
  utf8DecodeF (bs.length + 1) bs

/-- `decoder.decode(b"", final=True)`: flush; an incomplete tail is a strict
decode error. -/
def utf8DecodeFinal (pending : List Nat) : Except Err (List Char) :=
  match utf8DecodeInc pending with
  | .error er => .error er
  | .ok (cs, rest) => if rest = [] then .ok cs else .error .invalidValue

/-! ## `AsyncGzipTextFile` state -/

/-- The fields of the text stream that reading and writing depend on (the
cookie cache is deliberately separate: no I/O operation reads it). -/
structure TextCore where
  modeOp : Char
  modePlus : Bool
  writingMode : Bool
  chunkSize : Nat
  newline : NewlineMode
  lineSep : List Char
  compresslevel : Int
  isClosed : Bool
  binary : Option BinFile
  decoderPending : List Nat
  textBuffer : List Char
  trailingCr : Bool
deriving DecidableEq, Repr

/-- `_TextCookieState`. -/
structure CookieState where
  byteOffset : Nat
  decoderPending : List Nat
  textBuffer : List Char
  trailingCr : Bool
deriving DecidableEq, Repr

/-- The full text stream state: the core plus the insertion-ordered
`_cookie_cache` dict. -/
structure TextFile where
  core : TextCore
  cookieCache : List (Int × CookieState)
deriving DecidableEq, Repr

def MAX_COOKIE_CACHE_SIZE : Nat := 1000

/-- `dict.get`. -/
def cacheLookup (cache : List (Int × CookieState)) (k : Int) : Option CookieState :=
  (cache.find? (fun p => p.1 = k)).map (·.2)

/-- `dict[k] = v` (existing keys keep their slot; new keys append). -/
def cacheInsert (cache : List (Int × CookieState)) (k : Int) (v : CookieState) :
    List (Int × CookieState) :=
  if cache.any (fun p => p.1 = k) then
    cache.map (fun p => if p.1 = k then (k, v) else p)
  else cache ++ [(k, v)]

theorem cacheLookup_cacheInsert (cache : List (Int × CookieState)) (k : Int)
    (v : CookieState) : cacheLookup (cacheInsert cache k v) k = some v := by
  unfold cacheInsert
  by_cases hmem : cache.any (fun p => p.1 = k) = true
  · rw [if_pos hmem]
    unfold cacheLookup
    induction cache with
    | nil => simp at hmem
    | cons a t ih =>
      rw [List.any_cons] at hmem
      by_cases ha : a.1 = k
      · simp only [List.map_cons, if_pos (by simpa using ha)]
        rw [List.find?_cons_of_pos _ (by simp)]
        rfl
      · simp only [List.map_cons, if_neg (by simpa using ha)]
        rw [List.find?_cons_of_neg _ (by simpa using ha)]
        apply ih
        rcases (by simpa using hmem : a.1 = k ∨ t.any (fun p => p.1 = k) = true) with hc | hc
        · exact absurd hc ha
        · exact hc
  · rw [if_neg hmem]
    unfold cacheLookup
    induction cache with
    | nil => simp
    | cons a t ih =>
      rw [List.any_cons] at hmem
      have ha : ¬(a.1 = k) := by
        intro hc
        exact hmem (by simp [hc])
      rw [List.cons_append, List.find?_cons_of_neg _ (by simpa using ha)]
      exact ih (by intro hc; exact hmem (by simp [hc]))

/-- `tell()`. -/
def textTell (st : TextFile) : Except Err (Int × TextFile) :=
  match st.core.binary with
  | none => .error .notOpened
  | some bf =>
    match binTell bf with
    | .error er => .error er
    | .ok bytesOffset =>
      let flag : Int := if st.core.decoderPending ≠ [] then 1 else 0
      let cookie : Int := (bytesOffset : Int) * 2 + flag
      let cache1 :=
        if MAX_COOKIE_CACHE_SIZE ≤ st.cookieCache.length then
          st.cookieCache.drop (MAX_COOKIE_CACHE_SIZE / 2)
        else st.cookieCache
      let cst : CookieState :=
        { byteOffset := bytesOffset, decoderPending := st.core.decoderPending,
          textBuffer := st.core.textBuffer, trailingCr := st.core.trailingCr }
      .ok (cookie, { st with cookieCache := cacheInsert cache1 cookie cst })

/-- `_at_stream_eof()`. -/
def textAtEof (c : TextCore) : Bool :=
  match c.binary with
  | none => true
  | some bf => bf.eof

/-- `_read_chunk_and_decode()`: returns the `has_more` flag and the updated
core. -/
def readChunkAndDecode (c : TextCore) : Except Err (Bool × TextCore) :=
  match c.binary with
  | none => .ok (false, c)
  | some bf =>
    if bf.eof then .ok (false, c)
    else
      match binRead bf (c.chunkSize : Int) with
      | .error er => .error er
      | .ok (rawChunk, bf2) =>
        let c1 := { c with binary := some bf2 }
        if rawChunk = [] then
          match utf8DecodeFinal c1.decoderPending with
          | .error er => .error er
          | .ok finalDecoded =>
            if finalDecoded ≠ [] then
              let (txt, tcr) := applyNewlineDecoding c1.newline c1.trailingCr finalDecoded
              .ok (true, { c1 with decoderPending := [], textBuffer := c1.textBuffer ++ txt, trailingCr := tcr })
            else .ok (false, { c1 with decoderPending := [] })
        else
          match utf8DecodeInc (c1.decoderPending ++ rawChunk) with
          | .error er => .error er
          | .ok (decoded, pending2) =>
            if decoded ≠ [] then
              let (txt, tcr) := applyNewlineDecoding c1.newline c1.trailingCr decoded
              .ok (true, { c1 with decoderPending := pending2, textBuffer := c1.textBuffer ++ txt, trailingCr := tcr })
            else .ok (true, { c1 with decoderPending := pending2 })

/-- Total bytes a binary stream can still surface (transport + buffered). -/
def BinFile.data2Len (bf : BinFile) : Nat :=
  (match bf.file with
   | none => 0
   | some f => f.data.length) + bf.buffer.length + 4

/-- Fuel covering the text read loops: transport bytes still to come, plus
buffered bytes, plus the EOF flush rounds. -/
def textFuel (c : TextCore) : Nat :=
  match c.binary with
  | none => 4
  | some bf => bf.data2Len + 4

/-- The `while True` accumulation loop of text `read(-1)`. -/
def textReadAllLoop : Nat → TextCore → List Char → Except Err (List Char × TextCore)
  | 0, _, _ => .error .ioError
  | fuel + 1, c, acc =>
    match readChunkAndDecode c with
    | .error er => .error er
    | .ok (false, c2) => .ok (acc, c2)
    | .ok (true, c2) =>
      textReadAllLoop fuel { c2 with textBuffer := [] } (acc ++ c2.textBuffer)

/-- The `while len(buffer) < size` loop of sized text `read`. -/
def textSizedLoop : Nat → TextCore → Nat → Except Err TextCore
  | 0, _, _ => .error .ioError
  | fuel + 1, c, size =>
    if c.textBuffer.length < size then
      match readChunkAndDecode c with
      | .error er => .error er
      | .ok (false, c2) => .ok c2
      | .ok (true, c2) => textSizedLoop fuel c2 size
    else .ok c

/-- `read(size)` on the core. -/
def textReadCore (c : TextCore) (size : Int) : Except Err (List Char × TextCore) :=
  if ¬(c.modeOp = 'r') then .error .notReadable
  else if c.isClosed then .error .closedStream
  else if c.binary = none then .error .notOpened
  else
    let size1 := if size < 0 then (-1 : Int) else size
    if size1 = 0 then .ok ([], c)
    else if size1 = -1 then
      textReadAllLoop (textFuel c + c.textBuffer.length + 4)
        { c with textBuffer := [] } c.textBuffer
    else
      match textSizedLoop (textFuel c + size1.toNat + 4) c size1.toNat with
      | .error er => .error er
      | .ok c2 =>
        .ok (c2.textBuffer.take size1.toNat,
          { c2 with textBuffer := c2.textBuffer.drop size1.toNat })

/-- `read(size)`: the cookie cache is carried through untouched. -/
def textRead (st : TextFile) (size : Int) : Except Err (List Char × TextFile) :=
  match textReadCore st.core size with
  | .error er => .error er
  | .ok (out, c2) => .ok (out, { st with core := c2 })

/-- The line-scan loop shared by `readline`. -/
def textReadlineLoop : Nat → TextCore → Int → Except Err (List Char × TextCore)
  | 0, _, _ => .error .ioError
  | fuel + 1, c, limit =>
    match getLineTerminatorPos c.newline (textAtEof c) c.textBuffer with
    | some (pos, len) =>
      let endP := pos + len
      let line := c.textBuffer.take endP
      let c2 := { c with textBuffer := c.textBuffer.drop endP }
      if limit ≠ -1 ∧ limit < (line.length : Int) then
        .ok (line.take limit.toNat,
          { c2 with textBuffer := line.drop limit.toNat ++ c2.textBuffer })
      else .ok (line, c2)
    | none =>
      if limit ≠ -1 ∧ limit ≤ (c.textBuffer.length : Int) then
        .ok (c.textBuffer.take limit.toNat,
          { c with textBuffer := c.textBuffer.drop limit.toNat })
      else
        match readChunkAndDecode c with
        | .error er => .error er
        | .ok (true, c2) => textReadlineLoop fuel c2 limit
        | .ok (false, c2) =>
          if c2.textBuffer = [] then .ok ([], c2)
          else
            let line := c2.textBuffer
            let c3 := { c2 with textBuffer := ([] : List Char) }
            if limit ≠ -1 ∧ limit < (line.length : Int) then
              .ok (line.take limit.toNat,
                { c3 with textBuffer := line.drop limit.toNat })
            else .ok (line, c3)

/-- `readline(limit)` on the core. -/
def textReadlineCore (c : TextCore) (limit : Int) : Except Err (List Char × TextCore) :=
  if c.isClosed then .error .closedStream
  else if ¬(c.modeOp = 'r') then .error .notReadable
  else if limit = 0 then .ok ([], c)
  else textReadlineLoop (textFuel c + c.textBuffer.length + 4) c limit

def textReadline (st : TextFile) (limit : Int) : Except Err (List Char × TextFile) :=
  match textReadlineCore st.core limit with
  | .error er => .error er
  | .ok (out, c2) => .ok (out, { st with core := c2 })

/-- The accumulation loop of `readlines`. -/
def textReadlinesLoop : Nat → TextCore → Int → Nat → List (List Char) →
    Except Err (List (List Char) × TextCore)
  | 0, _, _, _, _ => .error .ioError
  | fuel + 1, c, hint, total, acc =>
    match textReadlineCore c (-1) with
    | .error er => .error er
    | .ok (line, c2) =>
      if line = [] then .ok (acc, c2)
      else
        let total2 := total + line.length
        if 0 < hint ∧ hint ≤ (total2 : Int) then .ok (acc ++ [line], c2)
        else textReadlinesLoop fuel c2 hint total2 (acc ++ [line])

/-- `readlines(hint)` on the core. -/
def textReadlinesCore (c : TextCore) (hint : Int) :
    Except Err (List (List Char) × TextCore) :=
  if c.isClosed then .error .closedStream
  else if ¬(c.modeOp = 'r') then .error .notReadable
  else textReadlinesLoop (textFuel c + c.textBuffer.length + 4) c hint 0 []

def textReadlines (st : TextFile) (hint : Int) :
    Except Err (List (List Char) × TextFile) :=
  match textReadlinesCore st.core hint with
  | .error er => .error er
  | .ok (out, c2) => .ok (out, { st with core := c2 })

/-- `write(data)` on the core: translates newlines, encodes, delegates to the
binary write, and returns the length of the *original* string. -/
def textWriteCore (c : TextCore) (data : List Char) : Except Err (Nat × TextCore) :=
  if ¬(c.writingMode = true) then .error .notWritable
  else if c.isClosed then .error .closedStream
  else
    match c.binary with
    | none => .error .notOpened
    | some bf =>
      let textToEncode :=
        match c.newline with
        | .univ => replaceLF c.lineSep data
        | .lf => replaceLF ['\n'] data
        | .cr => replaceLF ['\r'] data
        | .crlf => replaceLF ['\r', '\n'] data
        | .noTrans => data
      let encoded := utf8Encode textToEncode
      match binWrite bf encoded with
      | .error er => .error er
      | .ok (_, bf2) => .ok (data.length, { c with binary := some bf2 })

def textWrite (st : TextFile) (data : List Char) : Except Err (Nat × TextFile) :=
  match textWriteCore st.core data with
  | .error er => .error er
  | .ok (n, c2) => .ok (n, { st with core := c2 })

/-- `writelines(lines)` on the core. -/
def textWritelinesCore (c : TextCore) (lines : List (List Char)) :
    Except Err TextCore :=
  if ¬(c.writingMode = true) then .error .notWritable
  else if c.isClosed then .error .closedStream
  else
    let rec go (c : TextCore) : List (List Char) → Except Err TextCore
      | [] => .ok c
      | l :: rest =>
        match textWriteCore c l with
        | .error er => .error er
        | .ok (_, c2) => go c2 rest
    go c lines

def textWritelines (st : TextFile) (lines : List (List Char)) :
    Except Err TextFile :=
  match textWritelinesCore st.core lines with
  | .error er => .error er
  | .ok c2 => .ok { st with core := c2 }

/-- `flush()` on the core. -/
def textFlushCore (c : TextCore) : Except Err TextCore :=
  if c.isClosed then .error .closedStream
  else
    match c.binary with
    | none => .ok c
    | some bf =>
      match binFlush bf with
      | .error er => .error er
      | .ok bf2 => .ok { c with binary := some bf2 }

def textFlush (st : TextFile) : Except Err TextFile :=
  match textFlushCore st.core with
  | .error er => .error er
  | .ok c2 => .ok { st with core := c2 }

/-- `seek(offset, whence)`. -/
def textSeek (st : TextFile) (offset : Int) (whence : Nat) :
    Except Err (Int × TextFile) :=
  match st.core.binary with
  | none => .error .notOpened
  | some bf =>
    if whence = SEEK_CUR then
      if offset ≠ 0 then .error .unsupported else textTell st
    else if whence = SEEK_END then
      if offset ≠ 0 then .error .unsupported
      else
        match textRead st (-1) with
        | .error er => .error er
        | .ok (_, st2) => textTell st2
    else if whence ≠ SEEK_SET then .error .invalidValue
    else
      match cacheLookup st.cookieCache offset with
      | some cst =>
        match binSeek bf (cst.byteOffset : Int) SEEK_SET with
        | .error er => .error er
        | .ok (_, bf2) =>
          .ok (offset, { st with core := { st.core with binary := some bf2, decoderPending := cst.decoderPending, textBuffer := cst.textBuffer, trailingCr := cst.trailingCr } })
      | none =>
        if offset ≠ 0 then .error .ioError
        else
          match binSeek bf 0 SEEK_SET with
          | .error er => .error er
          | .ok (_, bf2) =>
            .ok (offset, { st with core := { st.core with binary := some bf2, decoderPending := [], textBuffer := [], trailingCr := false } })

/-- `close()`: marks closed and clears the cookie cache first, then flushes
the decoder (read side) and closes the underlying binary stream; a failure
partway still leaves the stream flagged closed. -/
def textClose (st : TextFile) : TextFile × Except Err Unit :=
  if st.core.isClosed then (st, .ok ())
  else
    let st1 : TextFile :=
      { core := { st.core with isClosed := true }, cookieCache := [] }
    match (if st1.core.writingMode = false
           then (utf8DecodeFinal st1.core.decoderPending).map (fun _ => ())
           else .ok ()) with
    | .error er => (st1, .error er)
    | .ok _ =>
      match st1.core.binary with
      | none => (st1, .ok ())
      | some bf =>
        let (bf2, r) := binClose bf
        ({ st1 with core := { st1.core with binary := some bf2 } }, r)

theorem binSeek_position_noop (st : BinFile) (f : AFile)
    (hf : st.file = some f) (hw : st.writingMode = false) :
    binSeek st (st.position : Int) SEEK_SET = .ok (st.position, st) := by
  unfold binSeek
  rw [if_neg (show ¬(st.file = none) from by rw [hf]; simp)]
  rw [if_neg (show ¬(st.writingMode = true) from by rw [hw]; simp)]
  rw [if_pos (show SEEK_SET = SEEK_SET from rfl)]
  dsimp only
  rw [if_neg (show ¬((st.position : Int) < 0) from by omega)]
  rw [if_neg (show ¬((st.position : Int) < (st.position : Int)) from by omega)]
  dsimp only
  have hz : ((st.position : Int) - (st.position : Int)).toNat = 0 := by omega
  rw [hz]
  rw [(by omega : binFuel st + 0 + 2 = (binFuel st + 1) + 1)]
  rw [binConsumeLoop]
  rw [if_pos rfl]

theorem binWrite_ok (st : BinFile) (c : Comp) (f : AFile) (data : List Nat)
    (hw : st.writingMode = true) (hcl : st.isClosed = false)
    (hf : st.file = some f) (he : st.engine = .comp c) :
    binWrite st data = .ok (data.length,
      { st with
        crc := crc32Update st.crc data
        inputSize := st.inputSize + data.length
        position := st.inputSize + data.length
        engine := .comp { level := c.level, fed := c.fed ++ data } }) := by
  unfold binWrite
  rw [if_neg (show ¬¬(st.writingMode = true) from by rw [hw]; simp)]
  rw [if_neg (show ¬(st.isClosed = true) from by rw [hcl]; simp)]
  rw [hf]
  simp only [he]
  rw [if_neg (show ¬(compStep c data).1 ≠ [] from by unfold compStep; simp)]
  rfl

/-- C5: on a read-mode stream, `tell()` immediately followed by `seek()` to
that value is a no-op: the binary stream is returned in exactly the same
state (so later `read` output is unchanged), and a text stream is restored to
exactly the same core (binary state, decoder state, text buffer, trailing-CR
flag) from the cached cookie, so every later `read` returns the same output
it would have returned with no intervening seek. -/
theorem c5_seek_tell_roundtrip (st : BinFile) (f : AFile) (tst : TextFile)
    (bf : BinFile) (g : AFile)
    (hf : st.file = some f) (hw : st.writingMode = false)
    (hb : tst.core.binary = some bf) (hbf : bf.file = some g)
    (hbw : bf.writingMode = false) :
    (binTell st = .ok st.position ∧
      binSeek st (st.position : Int) SEEK_SET = .ok (st.position, st)) ∧
    (∃ cookie st1 st2,
      textTell tst = .ok (cookie, st1) ∧
      textSeek st1 cookie SEEK_SET = .ok (cookie, st2) ∧
      st2.core = tst.core ∧
      ∀ size, (textRead st2 size).map (fun r => r.1)
        = (textRead tst size).map (fun r => r.1)) := by
  refine ⟨⟨rfl, binSeek_position_noop st f hf hw⟩, ?_⟩
  obtain ⟨cookie, st1, htell, hcore1, hcache⟩ : ∃ cookie st1,
      textTell tst = .ok (cookie, st1) ∧ st1.core = tst.core ∧
      cacheLookup st1.cookieCache cookie
        = some ⟨bf.position, tst.core.decoderPending, tst.core.textBuffer,
                tst.core.trailingCr⟩ := by
    refine ⟨(bf.position : Int) * 2 + (if tst.core.decoderPending ≠ [] then 1 else 0), { tst with cookieCache := cacheInsert (if MAX_COOKIE_CACHE_SIZE ≤ tst.cookieCache.length then tst.cookieCache.drop (MAX_COOKIE_CACHE_SIZE / 2) else tst.cookieCache) ((bf.position : Int) * 2 + (if tst.core.decoderPending ≠ [] then 1 else 0)) { byteOffset := bf.position, decoderPending := tst.core.decoderPending, textBuffer := tst.core.textBuffer, trailingCr := tst.core.trailingCr } }, ?_, rfl, cacheLookup_cacheInsert _ _ _⟩
    unfold textTell
    rw [hb]
    rfl
  have hb1 : st1.core.binary = some bf := by rw [hcore1, hb]
  have hseek : textSeek st1 cookie SEEK_SET
      = .ok (cookie, { st1 with core := { st1.core with binary := some bf, decoderPending := tst.core.decoderPending, textBuffer := tst.core.textBuffer, trailingCr := tst.core.trailingCr } }) := by
    unfold textSeek
    rw [hb1]
    dsimp only
    rw [if_neg (show ¬(SEEK_SET = SEEK_CUR) from by norm_num [SEEK_SET, SEEK_CUR])]
    rw [if_neg (show ¬(SEEK_SET = SEEK_END) from by norm_num [SEEK_SET, SEEK_END])]
    rw [if_neg (show ¬(SEEK_SET ≠ SEEK_SET) from by simp)]
    rw [hcache]
    dsimp only
    rw [binSeek_position_noop bf g hbf hbw]
  have hcore2 : ({ st1.core with binary := some bf, decoderPending := tst.core.decoderPending, textBuffer := tst.core.textBuffer, trailingCr := tst.core.trailingCr } : TextCore) = tst.core := by
    rw [hcore1, ← hb]
  refine ⟨cookie, st1, _, htell, hseek, hcore2, ?_⟩
  intro size
  unfold textRead
  dsimp only
  rw [hcore2]
  cases h2 : textReadCore tst.core size with
  | error er => rfl
  | ok pr => rfl

/-- A transport whose writes fail (fault injection). -/
def failAF : AFile :=
  { data := [], pos := 0, closed := false, failWrite := true, failClose := false }

/-- The core of a freshly opened read-mode text stream over empty content. -/
def textROpenCore (cs : Nat) : TextCore :=
  { modeOp := 'r'
    modePlus := false
    writingMode := false
    chunkSize := cs
    newline := .univ
    lineSep := ['\n']
    compresslevel := 6
    isClosed := false
    binary := some (rbOpenState 4 [])
    decoderPending := []
    textBuffer := []
    trailingCr := false }

/-- A freshly opened read-mode text stream over empty content. -/
def textROpen (cs : Nat) : TextFile := { core := textROpenCore cs, cookieCache := [] }

/-- The core of an open write-mode text stream whose transport fails writes. -/
def textWFailCore : TextCore :=
  { modeOp := 'w'
    modePlus := false
    writingMode := true
    chunkSize := 4
    newline := .univ
    lineSep := ['\n']
    compresslevel := 6
    isClosed := false
    binary := some { wbOpenState 4 6 [] 0 with file := some failAF }
    decoderPending := []
    textBuffer := []
    trailingCr := false }

/-- An open write-mode text stream whose transport fails writes. -/
def textWFail : TextFile := { core := textWFailCore, cookieCache := [] }

theorem c5_seek_tell_roundtrip_witness :
    (binTell (rbOpenState 4 []) = .ok (rbOpenState 4 []).position ∧
      binSeek (rbOpenState 4 []) ((rbOpenState 4 []).position : Int) SEEK_SET
        = .ok ((rbOpenState 4 []).position, rbOpenState 4 [])) ∧
    (∃ cookie st1 st2,
      textTell (textROpen 4) = .ok (cookie, st1) ∧
      textSeek st1 cookie SEEK_SET = .ok (cookie, st2) ∧
      st2.core = (textROpen 4).core ∧
      ∀ size, (textRead st2 size).map (fun r => r.1)
        = (textRead (textROpen 4) size).map (fun r => r.1)) :=
  c5_seek_tell_roundtrip (rbOpenState 4 []) _ (textROpen 4) (rbOpenState 4 []) _
    rfl rfl rfl rfl rfl

theorem textClose_of_closed (st : TextFile) (h : st.core.isClosed = true) :
    textClose st = (st, .ok ()) := by
  unfold textClose
  rw [if_pos h]

theorem textClose_fst_closed (st : TextFile) :
    (textClose st).1.core.isClosed = true := by
  unfold textClose
  by_cases h : st.core.isClosed = true
  · rw [if_pos h]
    exact h
  · rw [if_neg h]
    dsimp only
    repeat' split
    all_goals rfl

theorem textClose_write_fail (tst : TextFile) (bf : BinFile) (c : Comp) (g : AFile)
    (htw : tst.core.isClosed = false) (htwm : tst.core.writingMode = true)
    (htb : tst.core.binary = some bf)
    (hbcl : bf.isClosed = false) (hbf : bf.file = some g) (hbw : bf.writingMode = true)
    (hbe : bf.engine = .comp c) (hgfw : g.failWrite = true) :
    textClose tst = ({ core := { tst.core with isClosed := true, binary := some { bf with isClosed := true } }, cookieCache := [] }, .error .ioError) := by
  unfold textClose
  rw [if_neg (show ¬(tst.core.isClosed = true) from by rw [htw]; simp)]
  dsimp only
  rw [htwm]
  rw [if_neg (show ¬((true : Bool) = false) from by simp)]
  simp only [htb]
  rw [binClose_write_fail bf c g hbcl hbf hbw hbe hgfw]

/-- C6: `close()` is idempotent and failure-safe, for both the binary and the
text stream: closing an already-closed stream is a no-op returning no error;
the very first thing any close does is set the closed flag, so the post-close
state is always flagged closed; and when the flush/trailer/transport-close
sequence fails partway, the error propagates to the caller while the stream
is still left flagged closed. -/
theorem c6_close_idempotent (st stw : BinFile) (c : Comp) (f : AFile)
    (tst tstw : TextFile) (bf : BinFile) (c2 : Comp) (g : AFile)
    (hcl : stw.isClosed = false) (hf : stw.file = some f)
    (hw : stw.writingMode = true) (he : stw.engine = .comp c)
    (hfw : f.failWrite = true)
    (htw : tstw.core.isClosed = false) (htwm : tstw.core.writingMode = true)
    (htb : tstw.core.binary = some bf)
    (hbcl : bf.isClosed = false) (hbf : bf.file = some g)
    (hbw : bf.writingMode = true) (hbe : bf.engine = .comp c2)
    (hgfw : g.failWrite = true) :
    (binClose ((binClose st).1) = ((binClose st).1, .ok ())) ∧
    ((binClose st).1.isClosed = true) ∧
    ((binClose stw).2 = .error .ioError ∧ (binClose stw).1.isClosed = true) ∧
    (textClose ((textClose tst).1) = ((textClose tst).1, .ok ())) ∧
    ((textClose tst).1.core.isClosed = true) ∧
    ((textClose tstw).2 = .error .ioError ∧
      (textClose tstw).1.core.isClosed = true) := by
  refine ⟨binClose_of_closed _ (binClose_fst_closed st), binClose_fst_closed st,
    ?_, textClose_of_closed _ (textClose_fst_closed tst), textClose_fst_closed tst, ?_⟩
  · rw [binClose_write_fail stw c f hcl hf hw he hfw]
    exact ⟨rfl, rfl⟩
  · rw [textClose_write_fail tstw bf c2 g htw htwm htb hbcl hbf hbw hbe hgfw]
    exact ⟨rfl, rfl⟩

theorem c6_close_idempotent_witness :
    ((binClose { wbOpenState 4 6 [] 0 with file := some failAF }).2
        = .error .ioError ∧
      (binClose { wbOpenState 4 6 [] 0 with file := some failAF }).1.isClosed
        = true) ∧
    (textClose ((textClose (textROpen 4)).1) = ((textClose (textROpen 4)).1, .ok ())) ∧
    ((textClose textWFail).2 = .error .ioError ∧
      (textClose textWFail).1.core.isClosed = true) := by
  have h := c6_close_idempotent (rbState 4) { wbOpenState 4 6 [] 0 with file := some failAF }
    { level := 6, fed := [] } failAF (textROpen 4) textWFail
    { wbOpenState 4 6 [] 0 with file := some failAF } { level := 6, fed := [] } failAF
    rfl rfl rfl rfl rfl rfl rfl rfl rfl rfl rfl rfl rfl
  exact ⟨h.2.2.1, h.2.2.2.1, h.2.2.2.2.2⟩

/-- C9: under universal-newline reading, whenever the line scanner selects a
terminator in the buffered text it is the earliest LF or CR in it; a lone CR
that sits at the very end of the buffered text is not treated as a complete
terminator while the underlying binary stream has not reached EOF, but is
once it has; and with `newline=None` the decoded buffer never contains a CR
at all (CR and CRLF are normalised to LF during decoding, a trailing CR being
held back via the trailing-CR flag). -/
theorem c9_universal_newline_terminator (text : List Char) :
    (∀ nl, (nl = NewlineMode.univ ∨ nl = NewlineMode.noTrans) →
      ∀ eof p l, getLineTerminatorPos nl eof text = some (p, l) →
        p < text.length ∧ (text.getD p ' ' = '\n' ∨ text.getD p ' ' = '\r') ∧
        ∀ i, i < p → ¬(text.getD i ' ' = '\n' ∨ text.getD i ' ' = '\r')) ∧
    (∀ pr, strFindChar text '\n' = none → strFindChar text '\r' = some pr →
      pr + 1 = text.length →
      getLineTerminatorPos NewlineMode.noTrans false text = none ∧
      getLineTerminatorPos NewlineMode.noTrans true text = some (pr, 1)) ∧
    (∀ tc : Bool, '\r' ∉ (applyNewlineDecoding NewlineMode.univ tc text).1) :=
  ⟨fun nl hnl eof p l h => getLineTerminatorPos_earliest nl hnl eof text p l h,
   fun pr hN hR htr => getLineTerminatorPos_trailing_cr text pr hN hR htr,
   fun tc => applyNewlineDecoding_univ_no_cr tc text⟩

theorem c9_universal_newline_terminator_witness :
    (getLineTerminatorPos NewlineMode.univ false ['a', '\n', '\r'] = some (1, 1) →
      (1 < (['a', '\n', '\r'] : List Char).length ∧
        ((['a', '\n', '\r'] : List Char).getD 1 ' ' = '\n' ∨
          (['a', '\n', '\r'] : List Char).getD 1 ' ' = '\r') ∧
        ∀ i, i < 1 → ¬((['a', '\n', '\r'] : List Char).getD i ' ' = '\n' ∨
          (['a', '\n', '\r'] : List Char).getD i ' ' = '\r'))) ∧
    (getLineTerminatorPos NewlineMode.noTrans false ['a', '\x0d'] = none ∧
      getLineTerminatorPos NewlineMode.noTrans true ['a', '\x0d'] = some (1, 1)) :=
  ⟨fun h => (c9_universal_newline_terminator ['a', '\n', '\r']).1
      NewlineMode.univ (Or.inl rfl) false 1 1 h,
   (c9_universal_newline_terminator ['a', '\x0d']).2.1 1 rfl rfl rfl⟩

theorem binWrite_isSome_ok (st : BinFile) (c : Comp) (data : List Nat)
    (hw : st.writingMode = true) (hcl : st.isClosed = false)
    (hfs : st.file.isSome = true) (he : st.engine = .comp c) :
    ∃ st2, binWrite st data = .ok (data.length, st2) := by
  obtain ⟨f, hfeq⟩ : ∃ f, st.file = some f := by
    cases hx : st.file
    · rw [hx] at hfs
      simp at hfs
    · exact ⟨_, rfl⟩
  exact ⟨_, binWrite_ok st c f data hw hcl hfeq he⟩

/-- C10: text `write(s)` on an open write-mode text stream returns the
character count of the original string `s`, whatever the newline mode, the
platform separator and the UTF-8 encoding do to the number of bytes handed to
the underlying binary write. -/
theorem c10_text_write_returns_length (st : TextFile) (bf : BinFile) (c : Comp)
    (data : List Char)
    (hw : st.core.writingMode = true) (hcl : st.core.isClosed = false)
    (hb : st.core.binary = some bf)
    (hbw : bf.writingMode = true) (hbcl : bf.isClosed = false)
    (hbfs : bf.file.isSome = true) (hbe : bf.engine = .comp c) :
    ∃ st2, textWrite st data = .ok (data.length, st2) := by
  unfold textWrite textWriteCore
  rw [if_neg (show ¬¬(st.core.writingMode = true) from by rw [hw]; simp)]
  rw [if_neg (show ¬(st.core.isClosed = true) from by rw [hcl]; simp)]
  rw [hb]
  dsimp only
  obtain ⟨bf2, hwr⟩ := binWrite_isSome_ok bf c
    (utf8Encode (match st.core.newline with
      | .univ => replaceLF st.core.lineSep data
      | .lf => replaceLF ['\n'] data
      | .cr => replaceLF ['\r'] data
      | .crlf => replaceLF ['\r', '\n'] data
      | .noTrans => data)) hbw hbcl hbfs hbe
  rw [hwr]
  exact ⟨_, rfl⟩

theorem c10_text_write_returns_length_witness :
    ∃ st2, textWrite { core := { textWFailCore with binary := some (wbOpenState 4 6 [] 0) }, cookieCache := [] } ['a', '\n', 'b'] = .ok (3, st2) :=
  c10_text_write_returns_length
    { core := { textWFailCore with binary := some (wbOpenState 4 6 [] 0) }, cookieCache := [] }
    (wbOpenState 4 6 [] 0) { level := 6, fed := [] } ['a', '\n', 'b']
    rfl rfl rfl rfl rfl rfl rfl

/-- C3 (amended): on a closed stream, the buffered I/O operations — `read`,
`write`, `readline`, `readlines`, `writelines` and `flush`, in both the
binary and the text layer — fail deterministically with the closed-stream
state error (after the mode check), but `tell()` performs no closed check at
all and succeeds: the binary `tell` returns the stored logical position, and
the text `tell` still builds and returns a cookie. -/
theorem c3_closed_state_errors (st : BinFile) (h : st.isClosed = true)
    (tst : TextFile) (ht : tst.core.isClosed = true) (bf : BinFile)
    (htb : tst.core.binary = some bf)
    (sz limit hint : Int) (data : List Nat) (lines : List (List Nat))
    (tdata : List Char) (tlines : List (List Char)) :
    (st.modeOp = 'r' → binRead st sz = .error .closedStream) ∧
    (st.writingMode = true → binWrite st data = .error .closedStream) ∧
    (st.modeOp = 'r' → binReadline st limit = .error .closedStream) ∧
    (st.modeOp = 'r' → binReadlines st hint = .error .closedStream) ∧
    (st.writingMode = true → binWritelines st lines = .error .closedStream) ∧
    binFlush st = .error .closedStream ∧
    binTell st = .ok st.position ∧
    (tst.core.modeOp = 'r' → textRead tst sz = .error .closedStream) ∧
    (tst.core.writingMode = true → textWrite tst tdata = .error .closedStream) ∧
    textReadline tst limit = .error .closedStream ∧
    textReadlines tst hint = .error .closedStream ∧
    (tst.core.writingMode = true →
      textWritelines tst tlines = .error .closedStream) ∧
    textFlush tst = .error .closedStream ∧
    (∃ cookie st2, textTell tst = .ok (cookie, st2)) := by
  refine ⟨?_, ?_, ?_, ?_, ?_, ?_, rfl, ?_, ?_, ?_, ?_, ?_, ?_, ?_⟩
  · intro hm
    unfold binRead
    rw [if_neg (show ¬¬(st.modeOp = 'r') from by rw [hm]; simp), if_pos h]
  · intro hw
    unfold binWrite
    rw [if_neg (show ¬¬(st.writingMode = true) from by rw [hw]; simp), if_pos h]
  · intro hm
    unfold binReadline
    rw [if_neg (show ¬¬(st.modeOp = 'r') from by rw [hm]; simp), if_pos h]
  · intro hm
    unfold binReadlines
    rw [if_neg (show ¬¬(st.modeOp = 'r') from by rw [hm]; simp), if_pos h]
  · intro hw
    unfold binWritelines
    rw [if_neg (show ¬¬(st.writingMode = true) from by rw [hw]; simp), if_pos h]
  · unfold binFlush
    rw [if_pos h]
  · intro hm
    unfold textRead textReadCore
    rw [if_neg (show ¬¬(tst.core.modeOp = 'r') from by rw [hm]; simp), if_pos ht]
  · intro hw
    unfold textWrite textWriteCore
    rw [if_neg (show ¬¬(tst.core.writingMode = true) from by rw [hw]; simp),
      if_pos ht]
  · unfold textReadline textReadlineCore
    rw [if_pos ht]
  · unfold textReadlines textReadlinesCore
    rw [if_pos ht]
  · intro hw
    unfold textWritelines textWritelinesCore
    rw [if_neg (show ¬¬(tst.core.writingMode = true) from by rw [hw]; simp),
      if_pos ht]
  · unfold textFlush textFlushCore
    rw [if_pos ht]
  · refine ⟨(bf.position : Int) * 2 + (if tst.core.decoderPending ≠ [] then 1 else 0), { tst with cookieCache := cacheInsert (if MAX_COOKIE_CACHE_SIZE ≤ tst.cookieCache.length then tst.cookieCache.drop (MAX_COOKIE_CACHE_SIZE / 2) else tst.cookieCache) ((bf.position : Int) * 2 + (if tst.core.decoderPending ≠ [] then 1 else 0)) { byteOffset := bf.position, decoderPending := tst.core.decoderPending, textBuffer := tst.core.textBuffer, trailingCr := tst.core.trailingCr } }, ?_⟩
    unfold textTell
    rw [htb]
    rfl

theorem c3_closed_state_errors_witness :
    binRead { rbState 4 with isClosed := true } (-1) = .error .closedStream ∧
    binFlush { rbState 4 with isClosed := true } = .error .closedStream ∧
    binTell { rbState 4 with isClosed := true } = .ok 0 ∧
    textReadline { core := { textROpenCore 4 with isClosed := true }, cookieCache := [] } (-1) = .error .closedStream ∧
    (∃ cookie st2, textTell { core := { textROpenCore 4 with isClosed := true }, cookieCache := [] } = .ok (cookie, st2)) := by
  have h := c3_closed_state_errors { rbState 4 with isClosed := true } rfl
    { core := { textROpenCore 4 with isClosed := true }, cookieCache := [] } rfl
    (rbOpenState 4 []) rfl (-1) (-1) (-1) [] [] [] []
  exact ⟨h.1 rfl, h.2.2.2.2.2.1, h.2.2.2.2.2.2.1, h.2.2.2.2.2.2.2.2.2.1,
    h.2.2.2.2.2.2.2.2.2.2.2.2.2⟩

end Aiogzip
